import Mathlib

/-!
Verification of the attribute-cascade and change-detection engine in
`src/state/src/node.rs` (the per-category state reducers `Size`, `Scroll`,
`Style`, `FontStyle`, `CursorSettings`, and their value parsers).

Modelling conventions:
* Rust `f32` values are modelled as exact rationals (`Rat`); the textual
  float grammar is modelled as finite decimal numerals (optional sign,
  digits, at most one decimal point) — the `inf`/`NaN`/exponent forms of
  Rust's float grammar are outside the model.
* Rust machine integers (`u8`, `i16`, `i32`, `usize`) are modelled as
  `Nat`/`Int` with their parse-time range checks made explicit.
* A Rust panic (`unwrap` on a failed parse) is modelled by the reduction
  returning `none`; a completed reduction returns `some`.
* The shared dirty sink (`ctx.lock().unwrap().mark_as_dirty(id)`) is
  modelled by the reducer returning the list of identities passed to
  `mark_as_dirty` during the call.
-/

/-! ## Character-list utilities (models of the Rust `str` operations used) -/

abbrev Chars := List Char

/-- ASCII/simple whitespace, as used by `split_whitespace` /
`split_ascii_whitespace` / `trim` on the inputs this grammar admits. -/
def isWs (c : Char) : Bool :=
  c = ' ' || c = '\t' || c = '\n' || c = '\r'

/-- Accumulator-style whitespace splitter: models Rust's
`split_whitespace` (empty tokens are never produced). -/
def splitWsAux : Chars → Chars → List Chars
  | [], acc => if acc = [] then [] else [acc.reverse]
  | c :: cs, acc =>
    if isWs c then
      if acc = [] then splitWsAux cs [] else acc.reverse :: splitWsAux cs []
    else
      splitWsAux cs (c :: acc)

def splitWs (cs : Chars) : List Chars := splitWsAux cs []

/-- Models Rust's `str::split(sep)`: keeps empty pieces, always returns at
least one piece. -/
def splitOnChar (sep : Char) : Chars → List Chars
  | [] => [[]]
  | c :: cs =>
    if c = sep then [] :: splitOnChar sep cs
    else
      match splitOnChar sep cs with
      | [] => [[c]]
      | p :: ps => (c :: p) :: ps

/-- Does `cs` start with `pat`? (model of `str::starts_with`). -/
def startsWith : Chars → Chars → Bool
  | _, [] => true
  | [], _ :: _ => false
  | c :: cs, p :: ps => c = p && startsWith cs ps

/-- Does `cs` contain `pat` as a contiguous substring?
(model of `str::contains(&str)`). -/
def hasSub (pat : Chars) : Chars → Bool
  | [] => pat.isEmpty
  | c :: rest => startsWith (c :: rest) pat || hasSub pat rest

/-- Model of `str::strip_prefix(pat)`. -/
def dropStart : Chars → Chars → Option Chars
  | [], cs => some cs
  | _ :: _, [] => none
  | p :: ps, c :: cs => if c = p then dropStart ps cs else none

/-- Model of `str::strip_suffix(ch)` for a single character. -/
def dropLastChar (ch : Char) (cs : Chars) : Option Chars :=
  match cs.getLast? with
  | some x => if x = ch then some cs.dropLast else none
  | none => none

/-- Fuel-driven scanner behind `removeSubNE`; every step consumes at
least one character, so fuel = input length always suffices. -/
def removeSubAux (p : Char) (ps : Chars) : Nat → Chars → Chars
  | _, [] => []
  | 0, cs => cs
  | fuel + 1, c :: rest =>
    if startsWith (c :: rest) (p :: ps) then
      removeSubAux p ps fuel (rest.drop ps.length)
    else
      c :: removeSubAux p ps fuel rest

/-- Model of `str::replace(pat, "")` for a nonempty pattern `p :: ps`:
removes every (left-to-right, non-overlapping) occurrence. -/
def removeSubNE (p : Char) (ps : Chars) (cs : Chars) : Chars :=
  removeSubAux p ps cs.length cs

/-- Model of `str::trim`. -/
def trimWs (cs : Chars) : Chars :=
  ((cs.dropWhile isWs).reverse.dropWhile isWs).reverse

/-! ## Decimal numerals -/

def digitChar (n : Nat) : Char :=
  match n with
  | 0 => '0' | 1 => '1' | 2 => '2' | 3 => '3' | 4 => '4'
  | 5 => '5' | 6 => '6' | 7 => '7' | 8 => '8' | _ => '9'

def digitVal (c : Char) : Nat := c.toNat - '0'.toNat

/-- Numeric value of a digit string (most significant first). -/
def natVal (ds : Chars) : Nat := ds.foldl (fun a c => a * 10 + digitVal c) 0

def allDigits (ds : Chars) : Bool := ds.all Char.isDigit

/-- Fuel-driven digit renderer behind `natDigits`; any fuel above `n`
suffices since the argument at least halves each step. -/
def natDigitsAux : Nat → Nat → Chars
  | 0, _ => []
  | fuel + 1, n =>
    if n < 10 then [digitChar n]
    else natDigitsAux fuel (n / 10) ++ [digitChar (n % 10)]

/-- Decimal digits of `n`, most significant first, no leading zeros
(except for `n = 0` itself). -/
def natDigits (n : Nat) : Chars := natDigitsAux (n + 1) n

/-- Pad a digit string on the left with `'0'` up to length `k`. -/
def leftPad (k : Nat) (ds : Chars) : Chars :=
  List.replicate (k - ds.length) '0' ++ ds

/-! ## Integer parsers (models of Rust `FromStr` for the machine integers) -/

/-- Unsigned digit run with optional leading `'+'`
(shared core of the unsigned Rust integer parsers). -/
def parseNatChars (cs : Chars) : Option Nat :=
  let ds := if cs.head? = some '+' then cs.tail else cs
  if ds ≠ [] ∧ allDigits ds then some (natVal ds) else none

/-- Model of `u8::from_str`. -/
def parseU8Chars (cs : Chars) : Option Nat :=
  match parseNatChars cs with
  | some n => if n ≤ 255 then some n else none
  | none => none

/-- Signed digit run with optional leading `'+'`/`'-'`
(shared core of the signed Rust integer parsers). -/
def parseIntChars (cs : Chars) : Option Int :=
  if cs.head? = some '-' then (parseNatChars ('+' :: cs.tail)).map (fun n => -(n : Int))
  else (parseNatChars cs).map (fun n => (n : Int))

/-- Model of `i32::from_str`. -/
def parseI32Chars (cs : Chars) : Option Int :=
  match parseIntChars cs with
  | some n => if -(2 ^ 31) ≤ n ∧ n ≤ 2 ^ 31 - 1 then some n else none
  | none => none

/-- Model of `i16::from_str`. -/
def parseI16Chars (cs : Chars) : Option Int :=
  match parseIntChars cs with
  | some n => if -(2 ^ 15) ≤ n ∧ n ≤ 2 ^ 15 - 1 then some n else none
  | none => none

/-- Model of `usize::from_str` (64-bit). -/
def parseUsizeChars (cs : Chars) : Option Nat :=
  match parseNatChars cs with
  | some n => if n ≤ 2 ^ 64 - 1 then some n else none
  | none => none

/-! ## Decimal float parser and renderer
(models of `f32::from_str` and the `{}` float `Display`, restricted to
finite decimals as explained in the header). -/

/-- Unsigned decimal: `digits`, `digits.digits`, `digits.` or `.digits`
(at least one digit overall). -/
def parseUFloat (cs : Chars) : Option Rat :=
  match splitOnChar '.' cs with
  | [ds] =>
    if ds ≠ [] ∧ allDigits ds then some ((natVal ds : Nat) : Rat) else none
  | [ip, fp] =>
    if (ip ≠ [] ∨ fp ≠ []) ∧ allDigits ip ∧ allDigits fp then
      some (mkRat ((natVal ip * 10 ^ fp.length + natVal fp : Nat) : Int) (10 ^ fp.length))
    else none
  | _ => none

def parseFloatChars (cs : Chars) : Option Rat :=
  match cs with
  | [] => none
  | c :: rest =>
    if c = '-' then (parseUFloat rest).map (fun q => -q)
    else if c = '+' then parseUFloat rest
    else parseUFloat (c :: rest)

def parseFloat (s : String) : Option Rat := parseFloatChars s.toList

/-- `q * 10 ^ k`, written through `mkRat` so that it evaluates inside
the kernel (`Rat.mul` is irreducible); `ratTimesPow10_eq` below proves
it equal to the ordinary product. -/
def ratTimesPow10 (q : Rat) (k : Nat) : Rat :=
  mkRat (q.num * (10 : Int) ^ k) q.den

/-- Smallest `k ≤ q.den` such that `q * 10 ^ k` is an integer
(defaults to `0` when no such `k` exists). -/
def decExp (q : Rat) : Nat :=
  match (List.range (q.den + 1)).find? (fun k => (ratTimesPow10 q k).den = 1) with
  | some k => k
  | none => 0

/-- Render a nonnegative decimal rational the way Rust's float `Display`
renders the corresponding value: integer digits, and a fractional part
only when needed. -/
def renderUFloat (q : Rat) : Chars :=
  let k := decExp q
  let n := (ratTimesPow10 q k).num.toNat
  if k = 0 then natDigits n
  else natDigits (n / 10 ^ k) ++ '.' :: leftPad k (natDigits (n % 10 ^ k))

def renderFloat (q : Rat) : Chars :=
  if q < 0 then '-' :: renderUFloat (-q) else renderUFloat q

/-- `q / 2`, written through `mkRat` so that it evaluates inside the
kernel (`Rat.div` is irreducible); `halfRat_eq` below proves it equal
to the ordinary quotient. This models the `total_padding / 2.0` of
`Size::reduce`. -/
def halfRat (q : Rat) : Rat := mkRat q.num (q.den * 2)

/-! ## Data model (the category state types of `node.rs`) -/

/-- `enum CalcType` — tokens of a calc expression. -/
inductive CalcType where
  | Sub
  | Mul
  | Div
  | Add
  | Percentage (p : Rat)
  | Manual (s : Rat)
deriving DecidableEq, Repr

/-- `enum SizeMode` (default `Auto`). -/
inductive SizeMode where
  | Auto
  | Calculation (calcs : List CalcType)
  | Percentage (p : Rat)
  | Manual (s : Rat)
deriving DecidableEq, Repr

/-- `enum DirectionMode` (default `Vertical`). -/
inductive DirectionMode where
  | Vertical
  | Horizontal
  | Both
deriving DecidableEq, Repr

/-- `skia_safe::Color` — an ARGB color. -/
structure Color where
  a : Nat
  r : Nat
  g : Nat
  b : Nat
deriving DecidableEq, Repr

def Color.fromRgb (r g b : Nat) : Color := ⟨255, r, g, b⟩

def Color.RED : Color := ⟨255, 255, 0, 0⟩
def Color.GREEN : Color := ⟨255, 0, 255, 0⟩
def Color.BLUE : Color := ⟨255, 0, 0, 255⟩
def Color.YELLOW : Color := ⟨255, 255, 255, 0⟩
def Color.BLACK : Color := ⟨255, 0, 0, 0⟩
def Color.GRAY : Color := ⟨255, 136, 136, 136⟩
def Color.WHITE : Color := ⟨255, 255, 255, 255⟩
def Color.TRANSPARENT : Color := ⟨0, 0, 0, 0⟩

/-- `skia_safe::textlayout::TextAlign` (default `Left`). -/
inductive TextAlign where
  | Left
  | Right
  | Center
  | Justify
  | Start
  | End
deriving DecidableEq, Repr

/-- The four `skia_safe::FontStyle` values this code constructs
(default = normal). -/
inductive SkFontStyle where
  | normal
  | italic
  | bold
  | boldItalic
deriving DecidableEq, Repr

/-- `struct FontStyle` — the resolved font state of one node. -/
structure FontStyle where
  color : Color
  fontFamily : String
  fontSize : Rat
  lineHeight : Rat
  align : TextAlign
  maxLines : Option Nat
  fontStyle : SkFontStyle
deriving DecidableEq, Repr

/-- `impl Default for FontStyle`. -/
def FontStyle.default : FontStyle :=
  { color := Color.WHITE
    fontFamily := "Fira Sans"
    fontSize := 16
    lineHeight := mkRat 12 10
    align := TextAlign.Left
    maxLines := none
    fontStyle := SkFontStyle.normal }

/-- `struct ShadowSettings`. -/
structure ShadowSettings where
  x : Rat
  y : Rat
  intensity : Nat
  size : Rat
  color : Color
deriving DecidableEq, Repr

def ShadowSettings.default : ShadowSettings :=
  ⟨0, 0, 0, 0, ⟨0, 0, 0, 0⟩⟩

/-- `enum DisplayMode` (default `Normal`). -/
inductive DisplayMode where
  | Normal
  | Center
deriving DecidableEq, Repr

/-- `enum CursorMode`. -/
inductive CursorMode where
  | None
  | Editable
deriving DecidableEq, Repr

/-- `struct CursorSettings`. -/
structure CursorSettings where
  position : Option Int
  color : Color
  mode : CursorMode
  id : Option Nat
deriving DecidableEq, Repr

/-- `impl Default for CursorSettings`. -/
def CursorSettings.default : CursorSettings :=
  { position := none
    color := Color.WHITE
    mode := CursorMode.None
    id := none }

/-- `struct Style`. -/
structure Style where
  background : Color
  relativeLayer : Int
  shadow : ShadowSettings
  radius : Rat
  imageData : Option (List Nat)
  svgData : Option (List Nat)
  display : DisplayMode
deriving DecidableEq, Repr

/-- `struct Size` — `id` is the node-identity field used only for
dirty reporting. -/
structure Size where
  width : SizeMode
  height : SizeMode
  minHeight : SizeMode
  minWidth : SizeMode
  padding : Rat × Rat × Rat × Rat
  direction : DirectionMode
  id : Nat
deriving DecidableEq, Repr

def Size.default : Size :=
  { width := SizeMode.Auto
    height := SizeMode.Auto
    minHeight := SizeMode.Auto
    minWidth := SizeMode.Auto
    padding := (0, 0, 0, 0)
    direction := DirectionMode.Vertical
    id := 0 }

/-- `struct Scroll`. -/
structure Scroll where
  scrollY : Rat
  scrollX : Rat
  id : Nat
deriving DecidableEq, Repr

def Scroll.default : Scroll := ⟨0, 0, 0⟩

/-- The forms of `dioxus_core::AttributeValue` this code consumes:
text (via `to_string` / `as_text`) and raw bytes (via `as_bytes`).
Byte payloads are modelled as lists of naturals. -/
inductive AttributeValue where
  | text (s : String)
  | bytes (b : List Nat)
deriving DecidableEq, Repr

/-- `attr.value.to_string()` (the `Display` of an attribute value;
only text values are ever parsed by this code). -/
def AttributeValue.toStr : AttributeValue → String
  | .text s => s
  | .bytes _ => ""

/-- `attr.value.as_text()`. -/
def AttributeValue.asText : AttributeValue → Option String
  | .text s => some s
  | .bytes _ => none

/-- `attr.value.as_bytes()`. -/
def AttributeValue.asBytes : AttributeValue → Option (List Nat)
  | .text _ => none
  | .bytes b => some b

/-- The UTF-8 bytes of a string (`str::as_bytes().to_vec()`), modelled
as the injective byte image of its characters. -/
def strBytes (s : String) : List Nat := s.toList.map Char.toNat

/-- The read-only per-node view a reducer receives (`NodeView`):
identity, tag, text content, and the raw attribute list in order. -/
structure NodeView where
  id : Nat
  tag : Option String
  text : Option String
  attrs : List (String × AttributeValue)

/-! ## Value parsers (`parse_*` functions of `node.rs`) -/

/-- `parse_display`. -/
def parse_display (value : String) : DisplayMode :=
  if value = "center" then DisplayMode.Center else DisplayMode.Normal

/-- `parse_text_align`. -/
def parse_text_align (align : String) : TextAlign :=
  if align = "center" then TextAlign.Center
  else if align = "end" then TextAlign.End
  else if align = "justify" then TextAlign.Justify
  else if align = "left" then TextAlign.Left
  else if align = "right" then TextAlign.Right
  else if align = "start" then TextAlign.Start
  else TextAlign.Left

/-- `parse_cursor`. -/
def parse_cursor (cursor : String) : CursorMode :=
  if cursor = "editable" then CursorMode.Editable else CursorMode.None

/-- `parse_font_style`. -/
def parse_font_style (style : String) : SkFontStyle :=
  if style = "italic" then SkFontStyle.italic
  else if style = "bold" then SkFontStyle.bold
  else if style = "bold-italic" then SkFontStyle.boldItalic
  else SkFontStyle.normal

/-- `parse_rgb`: removes the literal `rgb(` and every `)`, splits on
`,`, and parses the first three components as `u8` after trimming. -/
def parseRgbChars (cs : Chars) : Option Color :=
  let cleaned := (removeSubNE 'r' ['g', 'b', '('] cs).filter (fun c => c ≠ ')')
  match splitOnChar ',' cleaned with
  | r :: g :: b :: _ => do
    let rv ← parseU8Chars (trimWs r)
    let gv ← parseU8Chars (trimWs g)
    let bv ← parseU8Chars (trimWs b)
    some (Color.fromRgb rv gv bv)
  | _ => none

def parse_rgb (color : String) : Option Color := parseRgbChars color.toList

/-- `parse_color`: fixed name table, else `parse_rgb`. -/
def parseColorChars (cs : Chars) : Option Color :=
  if cs = "red".toList then some Color.RED
  else if cs = "green".toList then some Color.GREEN
  else if cs = "blue".toList then some Color.BLUE
  else if cs = "yellow".toList then some Color.YELLOW
  else if cs = "black".toList then some Color.BLACK
  else if cs = "gray".toList then some Color.GRAY
  else if cs = "white".toList then some Color.WHITE
  else parseRgbChars cs

def parse_color (color : String) : Option Color := parseColorChars color.toList

/-- `parse_shadow`: five whitespace tokens taken via `next()?` in order
x, y, intensity (`u8`), size, color; tokens beyond the fifth are never
requested from the iterator. -/
def parse_shadow (value : String) : Option ShadowSettings :=
  match splitWs value.toList with
  | x :: y :: i :: sz :: c :: _ => do
    let xv ← parseFloatChars x
    let yv ← parseFloatChars y
    let iv ← parseU8Chars i
    let szv ← parseFloatChars sz
    let cv ← parseColorChars c
    some ⟨xv, yv, iv, szv, cv⟩
  | _ => none

/-- The pattern `"calc("` as characters. -/
def calcPat : Chars := 'c' :: 'a' :: 'l' :: 'c' :: []

/-- One token of a calc expression, as classified by the loop body of
`parse_calc`. -/
def calcToken (v : Chars) : Option CalcType :=
  if v.any (fun c => c = '%') then
    (parseFloatChars (v.filter (fun c => c ≠ '%'))).map CalcType.Percentage
  else if v = ['+'] then some CalcType.Add
  else if v = ['-'] then some CalcType.Sub
  else if v = ['/'] then some CalcType.Div
  else if v = ['*'] then some CalcType.Mul
  else (parseFloatChars v).map CalcType.Manual

def calcTokens : List Chars → Option (List CalcType)
  | [] => some []
  | v :: vs => do
    let t ← calcToken v
    let ts ← calcTokens vs
    some (t :: ts)

/-- `parse_calc`: requires the `calc(`…`)` wrapper, splits the inside on
whitespace and classifies every token; any bad token fails the whole
parse. -/
def parse_calc (size : String) : Option (List CalcType) := do
  let cs ← dropStart ('c' :: 'a' :: 'l' :: 'c' :: '(' :: []) size.toList
  let cs ← dropLastChar ')' cs
  calcTokens (splitWs cs)

/-- `parse_size` — branch order exactly as in the source (including the
duplicated, unreachable second `calc` branch). -/
def parse_size (size : String) : Option SizeMode :=
  if size = "stretch" then some (SizeMode.Percentage 100)
  else if size = "auto" then some SizeMode.Auto
  else if hasSub calcPat size.toList then (parse_calc size).map SizeMode.Calculation
  else if size.toList.any (fun c => c = '%') then
    (parseFloatChars (size.toList.filter (fun c => c ≠ '%'))).map SizeMode.Percentage
  else if hasSub calcPat size.toList then (parse_calc size).map SizeMode.Calculation
  else (parseFloatChars size.toList).map SizeMode.Manual

/-! ## The `Display` renderings (`impl Display for CalcType` /
`impl Display for SizeMode`) -/

/-- `impl Display for CalcType`. -/
def calcText : CalcType → Chars
  | CalcType.Sub => ['-']
  | CalcType.Mul => ['*']
  | CalcType.Div => ['/']
  | CalcType.Add => ['+']
  | CalcType.Percentage p => renderFloat p ++ ['%']
  | CalcType.Manual s => renderFloat s

/-- `join(" ")` over rendered calc tokens. -/
def joinWords : List Chars → Chars
  | [] => []
  | [t] => t
  | t :: ts => t ++ ' ' :: joinWords ts

/-- `impl Display for SizeMode` (the `to_text` rendering of the spec). -/
def sizeModeText : SizeMode → String
  | SizeMode.Auto => "auto"
  | SizeMode.Manual s => ⟨renderFloat s⟩
  | SizeMode.Calculation calcs =>
    ⟨('c' :: 'a' :: 'l' :: 'c' :: '(' :: []) ++ joinWords (calcs.map calcText) ++ [')']⟩
  | SizeMode.Percentage p => ⟨renderFloat p ++ ['%']⟩

/-! ## Reducers -/

/-- Loop body of `FontStyle::reduce`: layer one attribute over the
accumulated font style. Every parse here is guarded; unrecognized
names fall through unchanged. -/
def fontStep (fs : FontStyle) (a : String × AttributeValue) : FontStyle :=
  if a.1 = "color" then
    match parse_color a.2.toStr with
    | some c => { fs with color := c }
    | none => fs
  else if a.1 = "font_family" then { fs with fontFamily := a.2.toStr }
  else if a.1 = "font_size" then
    match parseFloat a.2.toStr with
    | some v => { fs with fontSize := v }
    | none => fs
  else if a.1 = "line_height" then
    match parseFloat a.2.toStr with
    | some v => { fs with lineHeight := v }
    | none => fs
  else if a.1 = "align" then { fs with align := parse_text_align a.2.toStr }
  else if a.1 = "max_lines" then
    match parseUsizeChars a.2.toStr.toList with
    | some v => { fs with maxLines := some v }
    | none => fs
  else if a.1 = "font_style" then { fs with fontStyle := parse_font_style a.2.toStr }
  else fs

/-- `impl ParentDepState for FontStyle :: reduce`: start from the
parent's resolved state (or the type default), layer the node's
attributes, compare against the previous value. -/
def FontStyle.reduce (self : FontStyle) (node : NodeView) (parent : Option FontStyle) :
    FontStyle × Bool :=
  let fs := node.attrs.foldl fontStep (parent.getD FontStyle.default)
  (fs, decide (fs ≠ self))

/-- The mutable locals of `Size::reduce` before the comparison. -/
structure SizeAcc where
  width : SizeMode
  height : SizeMode
  minHeight : SizeMode
  minWidth : SizeMode
  padding : Rat × Rat × Rat × Rat
  direction : DirectionMode
deriving DecidableEq, Repr

/-- Initial direction of `Size::reduce`: `Both` for the text-bearing
tags `label` / `paragraph` / `text` or when the node has text content,
else `Vertical`. -/
def defaultDirection (node : NodeView) : DirectionMode :=
  if node.tag = some "label" then DirectionMode.Both
  else if node.tag = some "paragraph" then DirectionMode.Both
  else if node.tag = some "text" then DirectionMode.Both
  else if node.text.isSome then DirectionMode.Both
  else DirectionMode.Vertical

/-- Loop body of `Size::reduce`. The size parses are guarded; the
`padding` parse is `unwrap`ped in the source, so its failure aborts the
whole call (`none`). -/
def sizeStep (acc : SizeAcc) (a : String × AttributeValue) : Option SizeAcc :=
  if a.1 = "width" then
    match parse_size a.2.toStr with
    | some w => some { acc with width := w }
    | none => some acc
  else if a.1 = "height" then
    match parse_size a.2.toStr with
    | some h => some { acc with height := h }
    | none => some acc
  else if a.1 = "min_height" then
    match parse_size a.2.toStr with
    | some h => some { acc with minHeight := h }
    | none => some acc
  else if a.1 = "min_width" then
    match parse_size a.2.toStr with
    | some w => some { acc with minWidth := w }
    | none => some acc
  else if a.1 = "padding" then
    match parseFloat a.2.toStr with
    | some total =>
      some { acc with padding := (halfRat total, halfRat total, halfRat total, halfRat total) }
    | none => none
  else if a.1 = "direction" then
    some { acc with direction :=
      if a.2.toStr = "horizontal" then DirectionMode.Horizontal
      else if a.2.toStr = "both" then DirectionMode.Both
      else DirectionMode.Vertical }
  else some acc

def sizeFold : List (String × AttributeValue) → SizeAcc → Option SizeAcc
  | [], acc => some acc
  | a :: rest, acc =>
    match sizeStep acc a with
    | some acc' => sizeFold rest acc'
    | none => none

/-- `impl ParentDepState for Size :: reduce`. Returns the new state, the
changed flag, and the list of identities passed to `mark_as_dirty`
(`none` models the padding-parse panic). -/
def Size.reduce (self : Size) (node : NodeView) : Option (Size × Bool × List Nat) :=
  let init : SizeAcc :=
    { width := SizeMode.Auto
      height := SizeMode.Auto
      minHeight := SizeMode.Auto
      minWidth := SizeMode.Auto
      padding := (0, 0, 0, 0)
      direction := defaultDirection node }
  match sizeFold node.attrs init with
  | none => none
  | some f =>
    let changed :=
      decide (f.width ≠ self.width) || decide (f.height ≠ self.height) ||
      decide (f.minHeight ≠ self.minHeight) || decide (f.minWidth ≠ self.minWidth) ||
      decide (f.padding ≠ self.padding) || decide (f.direction ≠ self.direction)
    some
      ({ width := f.width
         height := f.height
         minHeight := f.minHeight
         minWidth := f.minWidth
         padding := f.padding
         direction := f.direction
         id := node.id },
       changed,
       if changed then [node.id] else [])

/-- Loop body of `Scroll::reduce`: both numeric parses are
`unwrap`ped, so any failure aborts the call. -/
def scrollStep (acc : Rat × Rat) (a : String × AttributeValue) : Option (Rat × Rat) :=
  if a.1 = "scroll_y" then
    match parseFloat a.2.toStr with
    | some v => some (acc.1, v)
    | none => none
  else if a.1 = "scroll_x" then
    match parseFloat a.2.toStr with
    | some v => some (v, acc.2)
    | none => none
  else some acc

def scrollFold : List (String × AttributeValue) → Rat × Rat → Option (Rat × Rat)
  | [], acc => some acc
  | a :: rest, acc =>
    match scrollStep acc a with
    | some acc' => scrollFold rest acc'
    | none => none

/-- `impl ParentDepState for Scroll :: reduce` (same return convention
as `Size.reduce`). -/
def Scroll.reduce (self : Scroll) (node : NodeView) : Option (Scroll × Bool × List Nat) :=
  match scrollFold node.attrs (0, 0) with
  | none => none
  | some (x, y) =>
    let changed := decide (x ≠ self.scrollX) || decide (y ≠ self.scrollY)
    some ({ scrollY := y, scrollX := x, id := node.id }, changed,
      if changed then [node.id] else [])

/-- Loop body of `Style::reduce`: every parse is guarded; `image_data` /
`svg_data` / `svg_content` overwrite their option wholesale. -/
def styleStep (acc : Style) (a : String × AttributeValue) : Style :=
  if a.1 = "display" then { acc with display := parse_display a.2.toStr }
  else if a.1 = "background" then
    match parse_color a.2.toStr with
    | some c => { acc with background := c }
    | none => acc
  else if a.1 = "layer" then
    match parseI16Chars a.2.toStr.toList with
    | some v => { acc with relativeLayer := v }
    | none => acc
  else if a.1 = "shadow" then
    match parse_shadow a.2.toStr with
    | some s => { acc with shadow := s }
    | none => acc
  else if a.1 = "radius" then
    match parseFloat a.2.toStr with
    | some r => { acc with radius := r }
    | none => acc
  else if a.1 = "image_data" then { acc with imageData := a.2.asBytes }
  else if a.1 = "svg_data" then { acc with svgData := a.2.asBytes }
  else if a.1 = "svg_content" then { acc with svgData := a.2.asText.map strBytes }
  else acc

/-- `impl NodeDepState for Style :: reduce`: recomputes every field from
the node's own attributes; the published changed flag compares only
background, relative_layer, shadow, radius and image_data. -/
def Style.reduce (self : Style) (node : NodeView) : Style × Bool :=
  let f := node.attrs.foldl styleStep
    { background := Color.TRANSPARENT
      relativeLayer := 0
      shadow := ShadowSettings.default
      radius := 0
      imageData := none
      svgData := none
      display := DisplayMode.Normal }
  let changed :=
    decide (f.background ≠ self.background) ||
    decide (f.relativeLayer ≠ self.relativeLayer) ||
    decide (f.shadow ≠ self.shadow) ||
    decide (f.radius ≠ self.radius) ||
    decide (f.imageData ≠ self.imageData)
  (f, changed)

/-- Loop body of `CursorSettings::reduce`. `cursor_index` is read via
`as_text().unwrap()` and, when not `"none"`, parsed via `unwrap` — both
failures abort the call. The other parses are guarded. -/
def cursorStep (c : CursorSettings) (a : String × AttributeValue) : Option CursorSettings :=
  if a.1 = "cursor_index" then
    match a.2.asText with
    | none => none
    | some t =>
      if t = "none" then some c
      else
        match parseI32Chars t.toList with
        | some k => some { c with position := some k }
        | none => none
  else if a.1 = "cursor_color" then
    match parse_color a.2.toStr with
    | some col => some { c with color := col }
    | none => some c
  else if a.1 = "cursor_mode" then some { c with mode := parse_cursor a.2.toStr }
  else if a.1 = "cursor_id" then
    match parseUsizeChars a.2.toStr.toList with
    | some i => some { c with id := some i }
    | none => some c
  else some c

def cursorFold : List (String × AttributeValue) → CursorSettings → Option CursorSettings
  | [], c => some c
  | a :: rest, c =>
    match cursorStep c a with
    | some c' => cursorFold rest c'
    | none => none

/-- `impl ParentDepState for CursorSettings :: reduce`: start from the
parent's resolved state (or the default), layer the node's attributes,
compare against the previous value. -/
def CursorSettings.reduce (self : CursorSettings) (node : NodeView)
    (parent : Option CursorSettings) : Option (CursorSettings × Bool) :=
  match cursorFold node.attrs (parent.getD CursorSettings.default) with
  | none => none
  | some c => some (c, decide (c ≠ self))

/-! ## Bridge lemmas for the kernel-reducible rational helpers -/

theorem halfRat_eq (q : Rat) : halfRat q = q / 2 := by
  rw [halfRat, Rat.mkRat_eq_div]
  push_cast
  rw [← div_div, Rat.num_div_den]

theorem ratTimesPow10_eq (q : Rat) (k : Nat) : ratTimesPow10 q k = q * 10 ^ k := by
  have hden : ((q.den : ℚ)) ≠ 0 := by
    exact_mod_cast q.den_nz
  have hnum : ((q.num : ℚ)) = q * (q.den : ℚ) := (div_eq_iff hden).mp (Rat.num_div_den q)
  rw [ratTimesPow10, Rat.mkRat_eq_div, div_eq_iff hden]
  push_cast
  rw [hnum]
  ring

/-! ## C2 — FontStyle full inheritance -/

/-- The attribute names recognized by `FontStyle::reduce`. -/
def fontAttrNames : List String :=
  ["color", "font_family", "font_size", "line_height", "align", "max_lines", "font_style"]

theorem fontStep_unrecognized (fs : FontStyle) (a : String × AttributeValue)
    (h : a.1 ∉ fontAttrNames) : fontStep fs a = fs := by
  simp only [fontAttrNames, List.mem_cons, List.not_mem_nil, or_false, not_or] at h
  obtain ⟨h1, h2, h3, h4, h5, h6, h7⟩ := h
  simp [fontStep, h1, h2, h3, h4, h5, h6, h7]

theorem fontFold_unrecognized (attrs : List (String × AttributeValue)) (fs : FontStyle)
    (h : ∀ p ∈ attrs, p.1 ∉ fontAttrNames) : attrs.foldl fontStep fs = fs := by
  induction attrs generalizing fs with
  | nil => rfl
  | cons a rest ih =>
    rw [List.foldl_cons, fontStep_unrecognized fs a (h a (List.mem_cons_self a rest))]
    exact ih fs fun p hp => h p (List.mem_cons_of_mem a hp)

/-- C2: when a node carries none of the attributes recognized by the
FontStyle reducer, its resolved FontStyle is the parent's fully resolved
FontStyle verbatim, or the type default when there is no parent. -/
theorem font_style_full_inheritance (self : FontStyle) (node : NodeView)
    (parent : Option FontStyle) (h : ∀ p ∈ node.attrs, p.1 ∉ fontAttrNames) :
    (FontStyle.reduce self node parent).1 = parent.getD FontStyle.default := by
  unfold FontStyle.reduce
  exact fontFold_unrecognized node.attrs (parent.getD FontStyle.default) h

/-- C2 witness: a node with only an unrecognized attribute and a parent
with font_size 20 resolves to the parent state verbatim — in particular
font_size 20; with no parent it resolves to the type default. -/
theorem font_style_full_inheritance_witness :
    (FontStyle.reduce FontStyle.default
        ⟨1, none, none, [("foo", AttributeValue.text "bar")]⟩
        (some { FontStyle.default with fontSize := 20 })).1 =
      { FontStyle.default with fontSize := 20 } ∧
    (FontStyle.reduce FontStyle.default ⟨1, none, none, []⟩ none).1 = FontStyle.default :=
  ⟨font_style_full_inheritance _ _ _ (by decide),
   font_style_full_inheritance _ _ _ (by decide)⟩

/-! ## C5 — Style change flag ignores svg_data and display -/

/-- C5: the Style reducer's published change flag is computed only from
background, relative_layer, shadow, radius and image_data (so states
differing only in svg_data or display compare as unchanged), while the
stored state is recomputed wholesale from the node's own attributes
(and thus carries the freshly parsed svg_data and display no matter
what was stored before). -/
theorem style_change_flag_ignores_svg_display (self self' : Style) (node : NodeView) :
    ((Style.reduce self node).2 = false ↔
      ((Style.reduce self node).1.background = self.background ∧
       (Style.reduce self node).1.relativeLayer = self.relativeLayer ∧
       (Style.reduce self node).1.shadow = self.shadow ∧
       (Style.reduce self node).1.radius = self.radius ∧
       (Style.reduce self node).1.imageData = self.imageData)) ∧
    (Style.reduce self node).1 = (Style.reduce self' node).1 := by
  constructor
  · unfold Style.reduce
    simp only [Bool.or_eq_false_iff, decide_eq_false_iff_not, not_not]
    tauto
  · rfl

/-! ## C3 — Size reduction: guarded parses except padding -/

theorem sizeStep_some_of_ne (acc : SizeAcc) (a : String × AttributeValue)
    (h : a.1 ≠ "padding") : ∃ acc', sizeStep acc a = some acc' ∧ acc'.padding = acc.padding := by
  unfold sizeStep
  split_ifs <;> (cases parse_size a.2.toStr <;> exact ⟨_, rfl, rfl⟩)

theorem sizeStep_padding (acc : SizeAcc) (v : AttributeValue) :
    sizeStep acc ("padding", v) =
      match parseFloat v.toStr with
      | some total =>
        some { acc with padding := (halfRat total, halfRat total, halfRat total, halfRat total) }
      | none => none := by
  simp [sizeStep]

theorem sizeFold_isSome_iff (attrs : List (String × AttributeValue)) (acc : SizeAcc) :
    (sizeFold attrs acc).isSome ↔
      ∀ v, ("padding", v) ∈ attrs → (parseFloat v.toStr).isSome := by
  induction attrs generalizing acc with
  | nil => simp [sizeFold]
  | cons a rest ih =>
    by_cases hp : a.1 = "padding"
    · obtain ⟨n, v⟩ := a
      simp only at hp
      subst hp
      rw [sizeFold]
      rw [sizeStep_padding]
      cases hv : parseFloat v.toStr with
      | none =>
        simp only [Option.isSome_none, Bool.false_eq_true, false_iff, not_forall]
        exact ⟨v, by simp [hv]⟩
      | some t =>
        rw [ih]
        constructor
        · intro h u hu
          rcases List.mem_cons.mp hu with h1 | h1
          · cases h1; simp [hv]
          · exact h u h1
        · intro h u hu
          exact h u (List.mem_cons_of_mem _ hu)
    · rw [sizeFold]
      obtain ⟨acc', hstep, -⟩ := sizeStep_some_of_ne acc a hp
      rw [hstep, ih]
      constructor
      · intro h u hu
        rcases List.mem_cons.mp hu with h1 | h1
        · exact absurd (congrArg Prod.fst h1.symm) hp
        · exact h u h1
      · intro h u hu
        exact h u (List.mem_cons_of_mem _ hu)

/-- C3 (amended): a malformed value in width, height, min_width,
min_height or direction never fails the Size reduction call (those
parses are guarded and the default is kept), but the padding parse is
`unwrap`ped — the call completes exactly when every present padding
attribute parses as a number. -/
theorem size_reduce_completes_iff_padding_parses (self : Size) (node : NodeView) :
    (Size.reduce self node).isSome ↔
      ∀ v, ("padding", v) ∈ node.attrs → (parseFloat v.toStr).isSome := by
  rw [← sizeFold_isSome_iff node.attrs
    { width := SizeMode.Auto
      height := SizeMode.Auto
      minHeight := SizeMode.Auto
      minWidth := SizeMode.Auto
      padding := (0, 0, 0, 0)
      direction := defaultDirection node }]
  simp only [Size.reduce]
  cases sizeFold node.attrs
    { width := SizeMode.Auto
      height := SizeMode.Auto
      minHeight := SizeMode.Auto
      minWidth := SizeMode.Auto
      padding := (0, 0, 0, 0)
      direction := defaultDirection node } <;> rfl

/-- C3 counterexample: the claim says a non-numeric padding value does
not abort the pass, but the reduction call fails (models the `unwrap`
panic) on `padding="abc"`, even while malformed width is silently
ignored on the same node. -/
theorem size_reduce_malformed_padding_aborts :
    Size.reduce Size.default
      ⟨0, none, none,
        [("width", AttributeValue.text "oops"), ("padding", AttributeValue.text "abc")]⟩ =
      none := by decide

/-- C3 witness: a node whose padding parses (and whose width is
malformed) completes. -/
theorem size_reduce_completes_witness :
    (Size.reduce Size.default
      ⟨0, none, none,
        [("width", AttributeValue.text "oops"), ("padding", AttributeValue.text "4")]⟩).isSome =
      true :=
  (size_reduce_completes_iff_padding_parses _ _).mpr (by
    intro v hv
    simp only [List.mem_cons, List.not_mem_nil, or_false, Prod.mk.injEq] at hv
    rcases hv with ⟨h, -⟩ | ⟨-, hv⟩
    · exact absurd h (by decide)
    · subst hv; decide)

/-! ## C10 — padding "t" resolves all four sides to t/2 -/

theorem sizeFold_no_padding (attrs : List (String × AttributeValue)) (acc : SizeAcc)
    (h : ∀ p ∈ attrs, p.1 ≠ "padding") :
    ∃ f, sizeFold attrs acc = some f ∧ f.padding = acc.padding := by
  induction attrs generalizing acc with
  | nil => exact ⟨acc, rfl, rfl⟩
  | cons a rest ih =>
    obtain ⟨acc', hstep, hpad⟩ := sizeStep_some_of_ne acc a (h a (List.mem_cons_self a rest))
    rw [sizeFold, hstep]
    obtain ⟨f, hf, hfp⟩ := ih acc' fun p hp => h p (List.mem_cons_of_mem a hp)
    exact ⟨f, hf, hfp.trans hpad⟩

theorem sizeFold_single_padding (attrs : List (String × AttributeValue)) (acc : SizeAcc)
    (s : String) (t : Rat)
    (hfil : attrs.filter (fun p => p.1 == "padding") = [("padding", AttributeValue.text s)])
    (hp : parseFloat s = some t) :
    ∃ f, sizeFold attrs acc = some f ∧
      f.padding = (halfRat t, halfRat t, halfRat t, halfRat t) := by
  induction attrs generalizing acc with
  | nil => simp at hfil
  | cons a rest ih =>
    by_cases ha : a.1 = "padding"
    · rw [List.filter_cons_of_pos (by simpa using ha)] at hfil
      rw [List.cons_eq_cons] at hfil
      obtain ⟨haeq, hrest⟩ := hfil
      subst haeq
      rw [sizeFold, sizeStep_padding]
      have : parseFloat (AttributeValue.text s).toStr = some t := hp
      rw [this]
      have hnone : ∀ p ∈ rest, p.1 ≠ "padding" := by
        intro p hpmem
        have := List.filter_eq_nil_iff.mp hrest p hpmem
        simpa using this
      exact sizeFold_no_padding rest _ hnone
    · rw [List.filter_cons_of_neg (by simpa using ha)] at hfil
      obtain ⟨acc', hstep, -⟩ := sizeStep_some_of_ne acc a ha
      rw [sizeFold, hstep]
      exact ih acc' hfil

/-- C10: when the node's only padding attribute holds a well-formed
number `t`, the Size reducer resolves all four padding sides to `t / 2`
each. -/
theorem size_reduce_padding_halves (self : Size) (node : NodeView) (s : String) (t : Rat)
    (hfil : node.attrs.filter (fun p => p.1 == "padding") =
      [("padding", AttributeValue.text s)])
    (hp : parseFloat s = some t) :
    ∃ r, Size.reduce self node = some r ∧ r.1.padding = (t / 2, t / 2, t / 2, t / 2) := by
  obtain ⟨f, hf, hfp⟩ := sizeFold_single_padding node.attrs
    { width := SizeMode.Auto
      height := SizeMode.Auto
      minHeight := SizeMode.Auto
      minWidth := SizeMode.Auto
      padding := (0, 0, 0, 0)
      direction := defaultDirection node } s t hfil hp
  simp only [Size.reduce]
  rw [hf]
  exact ⟨_, rfl, by simp [hfp, halfRat_eq]⟩

/-- C10 witness: the attribute value `"10"` yields all four padding
sides equal to 5. -/
theorem size_reduce_padding_halves_witness :
    (∃ r, Size.reduce Size.default
        ⟨2, none, none, [("padding", AttributeValue.text "10")]⟩ = some r ∧
      r.1.padding = ((10 : Rat) / 2, (10 : Rat) / 2, (10 : Rat) / 2, (10 : Rat) / 2)) ∧
    (Size.reduce Size.default
        ⟨2, none, none, [("padding", AttributeValue.text "10")]⟩).map
      (fun r => r.1.padding) = some (5, 5, 5, 5) :=
  ⟨size_reduce_padding_halves _ _ "10" 10 (by decide) (by decide), by decide⟩

/-! ## C6 — CursorSettings caret-position protocol -/

theorem cursorStep_position_of (c : CursorSettings) (a : String × AttributeValue)
    (h : a.1 = "cursor_index" → a.2 = AttributeValue.text "none") :
    ∃ c', cursorStep c a = some c' ∧ c'.position = c.position := by
  unfold cursorStep
  split_ifs with h1 h2 h3 h4
  · rw [h h1]
    exact ⟨c, rfl, rfl⟩
  · cases parse_color a.2.toStr <;> exact ⟨_, rfl, rfl⟩
  · exact ⟨_, rfl, rfl⟩
  · cases parseUsizeChars a.2.toStr.toList <;> exact ⟨_, rfl, rfl⟩
  · exact ⟨_, rfl, rfl⟩

theorem cursorFold_position (attrs : List (String × AttributeValue)) (c : CursorSettings)
    (h : ∀ p ∈ attrs, p.1 = "cursor_index" → p.2 = AttributeValue.text "none") :
    ∃ c', cursorFold attrs c = some c' ∧ c'.position = c.position := by
  induction attrs generalizing c with
  | nil => exact ⟨c, rfl, rfl⟩
  | cons a rest ih =>
    obtain ⟨c', hstep, hpos⟩ := cursorStep_position_of c a (h a (List.mem_cons_self a rest))
    rw [cursorFold, hstep]
    obtain ⟨c'', hc, hp⟩ := ih c' fun p hp => h p (List.mem_cons_of_mem a hp)
    exact ⟨c'', hc, hp.trans hpos⟩

theorem cursorFold_single_idx (attrs : List (String × AttributeValue)) (c : CursorSettings)
    (s : String) (k : Int)
    (hfil : attrs.filter (fun p => p.1 == "cursor_index") =
      [("cursor_index", AttributeValue.text s)])
    (hs : s ≠ "none") (hk : parseI32Chars s.toList = some k) :
    ∃ c', cursorFold attrs c = some c' ∧ c'.position = some k := by
  induction attrs generalizing c with
  | nil => simp at hfil
  | cons a rest ih =>
    by_cases ha : a.1 = "cursor_index"
    · rw [List.filter_cons_of_pos (by simpa using ha)] at hfil
      rw [List.cons_eq_cons] at hfil
      obtain ⟨haeq, hrest⟩ := hfil
      subst haeq
      have hstep : cursorStep c ("cursor_index", AttributeValue.text s) =
          some { c with position := some k } := by
        unfold cursorStep
        simp [AttributeValue.asText, hs]
        rw [show s.data = s.toList from rfl, hk]
      rw [cursorFold, hstep]
      have hnone : ∀ p ∈ rest, p.1 = "cursor_index" → p.2 = AttributeValue.text "none" := by
        intro p hpmem hp1
        have := List.filter_eq_nil_iff.mp hrest p hpmem
        simp [hp1] at this
      obtain ⟨c'', hc, hp⟩ := cursorFold_position rest { c with position := some k } hnone
      exact ⟨c'', hc, hp⟩
    · rw [List.filter_cons_of_neg (by simpa using ha)] at hfil
      obtain ⟨c', hstep, -⟩ := cursorStep_position_of c a fun h1 => absurd h1 ha
      rw [cursorFold, hstep]
      exact ih c' hfil

/-- C6: in the CursorSettings reduction, `cursor_index="none"` (and an
absent cursor_index) leaves the caret position at the inherited value
(`some 3` from the parent stays `some 3`); any other cursor_index value
parses as an integer and sets the position regardless of the parent. -/
theorem cursor_settings_position_protocol (self : CursorSettings) (node : NodeView)
    (parent : Option CursorSettings) :
    ((∀ p ∈ node.attrs, p.1 = "cursor_index" → p.2 = AttributeValue.text "none") →
      ∃ r, CursorSettings.reduce self node parent = some r ∧
        r.1.position = (parent.getD CursorSettings.default).position) ∧
    (∀ s k, node.attrs.filter (fun p => p.1 == "cursor_index") =
        [("cursor_index", AttributeValue.text s)] → s ≠ "none" →
      parseI32Chars s.toList = some k →
      ∃ r, CursorSettings.reduce self node parent = some r ∧ r.1.position = some k) := by
  constructor
  · intro h
    obtain ⟨c', hc, hp⟩ :=
      cursorFold_position node.attrs (parent.getD CursorSettings.default) h
    refine ⟨(c', decide (c' ≠ self)), ?_, hp⟩
    simp only [CursorSettings.reduce, hc]
  · intro s k hfil hs hk
    obtain ⟨c', hc, hp⟩ :=
      cursorFold_single_idx node.attrs (parent.getD CursorSettings.default) s k hfil hs hk
    refine ⟨(c', decide (c' ≠ self)), ?_, hp⟩
    simp only [CursorSettings.reduce, hc]

/-- C6 witness: `cursor_index="none"` with a parent position of 3
resolves to 3; `cursor_index="7"` resolves to 7 regardless of the
parent. -/
theorem cursor_settings_position_witness :
    (∃ r, CursorSettings.reduce CursorSettings.default
        ⟨1, none, none, [("cursor_index", AttributeValue.text "none")]⟩
        (some { CursorSettings.default with position := some 3 }) = some r ∧
      r.1.position = some 3) ∧
    (∃ r, CursorSettings.reduce CursorSettings.default
        ⟨1, none, none, [("cursor_index", AttributeValue.text "7")]⟩
        (some { CursorSettings.default with position := some 3 }) = some r ∧
      r.1.position = some 7) :=
  ⟨(cursor_settings_position_protocol _ _ _).1 (by decide),
   (cursor_settings_position_protocol _ _ _).2 "7" 7 (by decide) (by decide) (by decide)⟩

/-! ## C4 — Scroll: hard failure on malformed values, defaults of 0 -/

theorem scrollStep_y (acc : Rat × Rat) (a : String × AttributeValue) (h : a.1 = "scroll_y") :
    scrollStep acc a =
      match parseFloat a.2.toStr with
      | some v => some (acc.1, v)
      | none => none := by
  simp [scrollStep, h]

theorem scrollStep_x (acc : Rat × Rat) (a : String × AttributeValue) (h : a.1 = "scroll_x") :
    scrollStep acc a =
      match parseFloat a.2.toStr with
      | some v => some (v, acc.2)
      | none => none := by
  have hy : a.1 ≠ "scroll_y" := by rw [h]; decide
  simp [scrollStep, h, hy]

theorem scrollStep_other (acc : Rat × Rat) (a : String × AttributeValue)
    (hx : a.1 ≠ "scroll_x") (hy : a.1 ≠ "scroll_y") : scrollStep acc a = some acc := by
  simp [scrollStep, hx, hy]

theorem scrollFold_isSome_iff (attrs : List (String × AttributeValue)) (acc : Rat × Rat) :
    (scrollFold attrs acc).isSome ↔
      ∀ p ∈ attrs, (p.1 = "scroll_x" ∨ p.1 = "scroll_y") → (parseFloat p.2.toStr).isSome := by
  induction attrs generalizing acc with
  | nil => simp [scrollFold]
  | cons a rest ih =>
    rw [scrollFold]
    by_cases hy : a.1 = "scroll_y"
    · rw [scrollStep_y acc a hy]
      cases hv : parseFloat a.2.toStr with
      | none =>
        simp only [Option.isSome_none, Bool.false_eq_true, false_iff, not_forall]
        exact ⟨a, List.mem_cons_self a rest, by simp [hy, hv]⟩
      | some v =>
        rw [ih]
        constructor
        · intro h p hp hname
          rcases List.mem_cons.mp hp with h1 | h1
          · subst h1; simp [hv]
          · exact h p h1 hname
        · intro h p hp hname
          exact h p (List.mem_cons_of_mem a hp) hname
    · by_cases hx : a.1 = "scroll_x"
      · rw [scrollStep_x acc a hx]
        cases hv : parseFloat a.2.toStr with
        | none =>
          simp only [Option.isSome_none, Bool.false_eq_true, false_iff, not_forall]
          exact ⟨a, List.mem_cons_self a rest, by simp [hx, hv]⟩
        | some v =>
          rw [ih]
          constructor
          · intro h p hp hname
            rcases List.mem_cons.mp hp with h1 | h1
            · subst h1; simp [hv]
            · exact h p h1 hname
          · intro h p hp hname
            exact h p (List.mem_cons_of_mem a hp) hname
      · rw [scrollStep_other acc a hx hy, ih]
        constructor
        · intro h p hp hname
          rcases List.mem_cons.mp hp with h1 | h1
          · subst h1; exact absurd hname (by simp [hx, hy])
          · exact h p h1 hname
        · intro h p hp hname
          exact h p (List.mem_cons_of_mem a hp) hname


theorem scrollFold_values (attrs : List (String × AttributeValue)) (x y x' y' : Rat)
    (h : scrollFold attrs (x, y) = some (x', y')) :
    (match (attrs.filter (fun p => p.1 == "scroll_x")).getLast? with
     | none => x' = x
     | some p => parseFloat p.2.toStr = some x') ∧
    (match (attrs.filter (fun p => p.1 == "scroll_y")).getLast? with
     | none => y' = y
     | some p => parseFloat p.2.toStr = some y') := by
  induction attrs generalizing x y with
  | nil =>
    rw [scrollFold, Option.some_inj, Prod.mk.injEq] at h
    simp only [List.filter_nil, List.getLast?_nil]
    exact ⟨h.1.symm, h.2.symm⟩
  | cons a rest ih =>
    rw [scrollFold] at h
    by_cases hy : a.1 = "scroll_y"
    · have hx : a.1 ≠ "scroll_x" := by rw [hy]; decide
      rw [scrollStep_y _ a hy] at h
      cases hv : parseFloat a.2.toStr with
      | none => rw [hv] at h; exact absurd h (by simp)
      | some v =>
        rw [hv] at h
        obtain ⟨ihx, ihy⟩ := ih x v h
        constructor
        · rw [List.filter_cons_of_neg (by simpa using hx)]
          exact ihx
        · rw [List.filter_cons_of_pos (by simpa using hy)]
          cases hrf : rest.filter (fun p => p.1 == "scroll_y") with
          | nil =>
            rw [hrf] at ihy
            simp only [List.getLast?_nil] at ihy
            simp only [List.getLast?_singleton]
            rw [hv, ihy]
          | cons b l =>
            rw [hrf] at ihy
            rw [List.getLast?_cons_cons]
            exact ihy
    · by_cases hx : a.1 = "scroll_x"
      · rw [scrollStep_x _ a hx] at h
        cases hv : parseFloat a.2.toStr with
        | none => rw [hv] at h; exact absurd h (by simp)
        | some v =>
          rw [hv] at h
          obtain ⟨ihx, ihy⟩ := ih v y h
          constructor
          · rw [List.filter_cons_of_pos (by simpa using hx)]
            cases hrf : rest.filter (fun p => p.1 == "scroll_x") with
            | nil =>
              rw [hrf] at ihx
              simp only [List.getLast?_nil] at ihx
              simp only [List.getLast?_singleton]
              rw [hv, ihx]
            | cons b l =>
              rw [hrf] at ihx
              rw [List.getLast?_cons_cons]
              exact ihx
          · rw [List.filter_cons_of_neg (by simpa using hy)]
            exact ihy
      · rw [scrollStep_other _ a hx hy] at h
        obtain ⟨ihx, ihy⟩ := ih x y h
        constructor
        · rw [List.filter_cons_of_neg (by simpa using hx)]
          exact ihx
        · rw [List.filter_cons_of_neg (by simpa using hy)]
          exact ihy

/-- C4: a present scroll_x/scroll_y attribute whose value does not
parse as a number makes the whole Scroll reduction call fail hard; when
every present scroll attribute parses, the call completes and resolves
scroll_x and scroll_y to the parsed values, or to the default 0 when
the attribute is absent. -/
theorem scroll_reduce_protocol (self : Scroll) (node : NodeView) :
    ((Scroll.reduce self node).isSome ↔
      ∀ p ∈ node.attrs, (p.1 = "scroll_x" ∨ p.1 = "scroll_y") →
        (parseFloat p.2.toStr).isSome) ∧
    ∀ r, Scroll.reduce self node = some r →
      (match (node.attrs.filter (fun p => p.1 == "scroll_x")).getLast? with
       | none => r.1.scrollX = 0
       | some p => parseFloat p.2.toStr = some r.1.scrollX) ∧
      (match (node.attrs.filter (fun p => p.1 == "scroll_y")).getLast? with
       | none => r.1.scrollY = 0
       | some p => parseFloat p.2.toStr = some r.1.scrollY) := by
  constructor
  · rw [← scrollFold_isSome_iff node.attrs (0, 0)]
    simp only [Scroll.reduce]
    rcases scrollFold node.attrs (0, 0) with - | ⟨x, y⟩ <;> rfl
  · intro r hr
    simp only [Scroll.reduce] at hr
    rcases hsf : scrollFold node.attrs (0, 0) with - | ⟨x', y'⟩
    · rw [hsf] at hr
      exact absurd hr (by simp)
    · rw [hsf] at hr
      rw [Option.some_inj] at hr
      have hv := scrollFold_values node.attrs 0 0 x' y' hsf
      rw [← hr]
      exact hv

/-- C4 witness: `scroll_x="bad"` aborts the call; `scroll_x="50"` with
`scroll_y` absent completes and resolves to 50 and the default 0. -/
theorem scroll_reduce_protocol_witness :
    Scroll.reduce Scroll.default
        ⟨4, none, none, [("scroll_x", AttributeValue.text "bad")]⟩ = none ∧
    Scroll.reduce Scroll.default
        ⟨4, none, none, [("scroll_x", AttributeValue.text "50")]⟩ =
      some ({ scrollY := 0, scrollX := 50, id := 4 }, true, [4]) ∧
    parseFloat "50" = some (50 : Rat) := by
  refine ⟨by decide, by decide, ?_⟩
  have h := (scroll_reduce_protocol Scroll.default
      ⟨4, none, none, [("scroll_x", AttributeValue.text "50")]⟩).2
      ({ scrollY := 0, scrollX := 50, id := 4 }, true, [4]) (by decide)
  exact h.1

/-! ## C1 — Size change detection and dirty protocol -/

/-- C1: for every completed Size reduction, the changed flag is true
exactly when one of the newly resolved width, height, min_width,
min_height, padding or direction differs from the previously stored
Size (the identity field is excluded), `mark_as_dirty` receives exactly
the current node's identity exactly when the flag is true, and
re-running the reducer on the stored result yields changed = false with
no dirty call. -/
theorem size_reduce_change_protocol (self : Size) (node : NodeView)
    (r : Size × Bool × List Nat) (h : Size.reduce self node = some r) :
    (r.2.1 = true ↔ (r.1.width ≠ self.width ∨ r.1.height ≠ self.height ∨
      r.1.minHeight ≠ self.minHeight ∨ r.1.minWidth ≠ self.minWidth ∨
      r.1.padding ≠ self.padding ∨ r.1.direction ≠ self.direction)) ∧
    r.2.2 = (if r.2.1 then [node.id] else []) ∧
    Size.reduce r.1 node = some (r.1, false, []) := by
  simp only [Size.reduce] at h ⊢
  cases hsf : sizeFold node.attrs
      { width := SizeMode.Auto
        height := SizeMode.Auto
        minHeight := SizeMode.Auto
        minWidth := SizeMode.Auto
        padding := (0, 0, 0, 0)
        direction := defaultDirection node } with
  | none =>
    rw [hsf] at h
    exact absurd h (by simp)
  | some f =>
    rw [hsf] at h
    rw [Option.some_inj] at h
    subst h
    refine ⟨?_, rfl, ?_⟩
    · simp [Bool.or_eq_true, decide_eq_true_eq]
      tauto
    · simp

/-- C1 witness: re-running on the stored state gives changed = false
and no dirty call; changing width from 50% to 60% gives changed = true
and exactly one dirty call carrying the node's identity 7. -/
theorem size_reduce_change_protocol_witness :
    Size.reduce { Size.default with width := SizeMode.Percentage 50, id := 7 }
        ⟨7, none, none, [("width", AttributeValue.text "60%")]⟩ =
      some ({ Size.default with width := SizeMode.Percentage 60, id := 7 }, true, [7]) ∧
    Size.reduce { Size.default with width := SizeMode.Percentage 60, id := 7 }
        ⟨7, none, none, [("width", AttributeValue.text "60%")]⟩ =
      some ({ Size.default with width := SizeMode.Percentage 60, id := 7 }, false, []) := by
  have h := size_reduce_change_protocol
    { Size.default with width := SizeMode.Percentage 50, id := 7 }
    ⟨7, none, none, [("width", AttributeValue.text "60%")]⟩
    ({ Size.default with width := SizeMode.Percentage 60, id := 7 }, true, [7])
    (by decide)
  exact ⟨by decide, h.2.2⟩

/-! ## C7 — parse_size and its specification -/

/-- C7 counterexample: the claim says that text containing "%" yields
"Percentage of its numeric prefix". The code instead strips every "%"
sign (wherever it occurs) and parses the whole remainder: on `"5%0"`
it yields Percentage(50) — not Percentage(5), the value of the numeric
prefix — and on `"50%x"` it yields none even though the numeric prefix
50 parses. -/
theorem parse_size_percent_not_prefix_cex :
    parse_size "5%0" = some (SizeMode.Percentage 50) ∧
    parse_size "5%0" ≠ some (SizeMode.Percentage 5) ∧
    parse_size "50%x" = none := by decide

/-- The amended description of `parse_size`, written in the spec's
branch order ("auto" → Auto; "stretch" → Percentage(100); text
containing "calc" → Calculation via parse_calc; other text containing
"%" → Percentage of the numeric value of the text with every "%" sign
removed; otherwise Manual; none whenever the required numeric or calc
parse fails). Reference definition for the refinement theorem
`parse_size_matches_spec`. -/
def parseSizeSpec (size : String) : Option SizeMode :=
  if size = "auto" then some SizeMode.Auto
  else if size = "stretch" then some (SizeMode.Percentage 100)
  else if hasSub calcPat size.toList then (parse_calc size).map SizeMode.Calculation
  else if size.toList.any (fun c => c = '%') then
    (parseFloatChars (size.toList.filter (fun c => c ≠ '%'))).map SizeMode.Percentage
  else (parseFloatChars size.toList).map SizeMode.Manual

/-- C7 (amended): `parse_size` behaves exactly as the amended
description above — with "%"-bearing text parsed after removing every
"%" sign rather than by taking a numeric prefix — including the
unreachable duplicated calc branch of the source collapsing away and
the differing "auto"/"stretch" test order being immaterial. -/
theorem parse_size_matches_spec (size : String) : parse_size size = parseSizeSpec size := by
  unfold parse_size parseSizeSpec
  split_ifs with h1 h2 <;> simp_all

/-! ## C9 — parse_shadow takes the first five tokens -/

/-- C9 counterexample: the claim says `parse_shadow` succeeds only on
exactly five whitespace-separated tokens, but a sixth token is simply
never requested from the iterator: a six-token input succeeds. -/
theorem parse_shadow_extra_token_accepted :
    parse_shadow "2 2 100 5 black black" =
      some ⟨2, 2, 100, 5, Color.BLACK⟩ ∧
    (splitWs "2 2 100 5 black black".toList).length = 6 := by decide

/-- C9 (amended): `parse_shadow` succeeds exactly when the input has at
least five whitespace-separated tokens and the first five parse in
order as x, y, intensity, size and color (tokens beyond the fifth are
ignored); it returns none, with no partial shadow, when a token is
missing or fails its own parse — `"2 2 100 5 black"` yields
x=2, y=2, intensity=100, size=5, color=black, and `"2 2 100 5"` yields
none. -/
theorem parse_shadow_first_five (s : String) :
    ((parse_shadow s).isSome ↔ ∃ x y i sz c rest,
      splitWs s.toList = x :: y :: i :: sz :: c :: rest ∧
      (parseFloatChars x).isSome ∧ (parseFloatChars y).isSome ∧
      (parseU8Chars i).isSome ∧ (parseFloatChars sz).isSome ∧
      (parseColorChars c).isSome) ∧
    parse_shadow "2 2 100 5 black" = some ⟨2, 2, 100, 5, Color.BLACK⟩ ∧
    parse_shadow "2 2 100 5" = none := by
  refine ⟨?_, by decide, by decide⟩
  unfold parse_shadow
  rcases hsp : splitWs s.toList with - | ⟨x, - | ⟨y, - | ⟨i, - | ⟨sz, - | ⟨c, rest⟩⟩⟩⟩⟩
  · simp
  · simp
  · simp
  · simp
  · simp
  · cases hx : parseFloatChars x with
    | none =>
      simp [hx]
      intro x1 x2 x3 x4 x5 e1 e2 e3 e4 e5 h1 h2 h3 h4
      subst e1; subst e2; subst e3; subst e4; subst e5
      simp_all
    | some xv =>
      cases hy2 : parseFloatChars y with
      | none =>
        simp [hx, hy2]
        intro x1 x2 x3 x4 x5 e1 e2 e3 e4 e5 h1 h2 h3 h4
        subst e1; subst e2; subst e3; subst e4; subst e5
        simp_all
      | some yv =>
        cases hi : parseU8Chars i with
        | none =>
          simp [hx, hy2, hi]
          intro x1 x2 x3 x4 x5 e1 e2 e3 e4 e5 h1 h2 h3 h4
          subst e1; subst e2; subst e3; subst e4; subst e5
          simp_all
        | some iv =>
          cases hsz : parseFloatChars sz with
          | none =>
            simp [hx, hy2, hi, hsz]
            intro x1 x2 x3 x4 x5 e1 e2 e3 e4 e5 h1 h2 h3 h4
            subst e1; subst e2; subst e3; subst e4; subst e5
            simp_all
          | some szv =>
            cases hc : parseColorChars c with
            | none =>
              simp [hx, hy2, hi, hsz, hc]
              intro x1 x2 x3 x4 x5 e1 e2 e3 e4 e5 h1 h2 h3 h4
              subst e1; subst e2; subst e3; subst e4; subst e5
              simp_all
            | some cv =>
              simp [hx, hy2, hi, hsz, hc]
              exact ⟨x, y, i, sz, c, ⟨rfl, rfl, rfl, rfl, rfl⟩,
                by simp [hx], by simp [hy2], by simp [hi], by simp [hsz], by simp [hc]⟩

/-! ## C8 — round trip of parse_size through the Display rendering.
First: digit-string lemmas. -/

theorem digitVal_digitChar (m : Nat) (h : m < 10) : digitVal (digitChar m) = m := by
  interval_cases m <;> decide

theorem isDigit_digitChar (m : Nat) (h : m < 10) : (digitChar m).isDigit = true := by
  interval_cases m <;> decide

theorem natVal_append_one (ds : Chars) (c : Char) :
    natVal (ds ++ [c]) = natVal ds * 10 + digitVal c := by
  simp [natVal, List.foldl_append]

theorem natDigitsAux_ne_nil (fuel n : Nat) (h : n < fuel) : natDigitsAux fuel n ≠ [] := by
  induction fuel generalizing n with
  | zero => omega
  | succ fuel ih =>
    rw [natDigitsAux]
    split_ifs with h10
    · simp
    · simp

theorem natDigitsAux_digits (fuel n : Nat) (h : n < fuel) :
    ∀ c ∈ natDigitsAux fuel n, c.isDigit = true := by
  induction fuel generalizing n with
  | zero => omega
  | succ fuel ih =>
    rw [natDigitsAux]
    split_ifs with h10
    · intro c hc
      rw [List.mem_singleton] at hc
      subst hc
      exact isDigit_digitChar n h10
    · intro c hc
      rcases List.mem_append.mp hc with h1 | h1
      · have hdiv : n / 10 < fuel := by
          have := Nat.div_lt_self (by omega : 0 < n) (by omega : 1 < 10)
          omega
        exact ih (n / 10) hdiv c h1
      · rw [List.mem_singleton] at h1
        subst h1
        exact isDigit_digitChar (n % 10) (Nat.mod_lt n (by omega))

theorem natVal_natDigitsAux (fuel n : Nat) (h : n < fuel) :
    natVal (natDigitsAux fuel n) = n := by
  induction fuel generalizing n with
  | zero => omega
  | succ fuel ih =>
    rw [natDigitsAux]
    split_ifs with h10
    · show natVal [digitChar n] = n
      have : natVal [digitChar n] = digitVal (digitChar n) := by simp [natVal]
      rw [this, digitVal_digitChar n h10]
    · have hdiv : n / 10 < fuel := by
        have := Nat.div_lt_self (by omega : 0 < n) (by omega : 1 < 10)
        omega
      rw [natVal_append_one, ih (n / 10) hdiv,
        digitVal_digitChar (n % 10) (Nat.mod_lt n (by omega))]
      omega

theorem natDigitsAux_length_le (fuel n k : Nat) (hf : n < fuel) (hn : n < 10 ^ k)
    (hk : 1 ≤ k) : (natDigitsAux fuel n).length ≤ k := by
  induction fuel generalizing n k with
  | zero => omega
  | succ fuel ih =>
    rw [natDigitsAux]
    split_ifs with h10
    · simpa using hk
    · have hdiv : n / 10 < fuel := by
        have := Nat.div_lt_self (by omega : 0 < n) (by omega : 1 < 10)
        omega
      have hk2 : 2 ≤ k := by
        by_contra hc
        have : k = 1 := by omega
        subst this
        simp at hn
        omega
      have hdivlt : n / 10 < 10 ^ (k - 1) := by
        have h1 : 10 ^ k = 10 ^ (k - 1) * 10 := by
          rw [← pow_succ]
          congr 1
          omega
        rw [h1] at hn
        exact Nat.div_lt_of_lt_mul (by omega)
      have := ih (n / 10) (k - 1) hdiv hdivlt (by omega)
      simp only [List.length_append, List.length_singleton]
      omega

theorem natVal_natDigits (n : Nat) : natVal (natDigits n) = n :=
  natVal_natDigitsAux (n + 1) n (Nat.lt_succ_self n)

theorem natDigits_ne_nil (n : Nat) : natDigits n ≠ [] :=
  natDigitsAux_ne_nil (n + 1) n (Nat.lt_succ_self n)

theorem natDigits_digits (n : Nat) : ∀ c ∈ natDigits n, c.isDigit = true :=
  natDigitsAux_digits (n + 1) n (Nat.lt_succ_self n)

theorem natDigits_length_le (n k : Nat) (hn : n < 10 ^ k) (hk : 1 ≤ k) :
    (natDigits n).length ≤ k :=
  natDigitsAux_length_le (n + 1) n k (Nat.lt_succ_self n) hn hk

theorem isDigit_not_special (c : Char) (h : c.isDigit = true) :
    c ≠ '.' ∧ c ≠ '-' ∧ c ≠ '+' ∧ c ≠ '%' ∧ c ≠ 'c' ∧ c ≠ 'a' ∧ c ≠ 's' := by
  refine ⟨?_, ?_, ?_, ?_, ?_, ?_, ?_⟩ <;> (rintro rfl; exact absurd h (by decide))

theorem isWs_of_isDigit (c : Char) (h : c.isDigit = true) : isWs c = false := by
  unfold isWs
  by_cases h1 : c = ' '
  · subst h1; exact absurd h (by decide)
  · by_cases h2 : c = '\t'
    · subst h2; exact absurd h (by decide)
    · by_cases h3 : c = '\n'
      · subst h3; exact absurd h (by decide)
      · by_cases h4 : c = '\r'
        · subst h4; exact absurd h (by decide)
        · simp [h1, h2, h3, h4]

theorem natVal_replicate_zero (j : Nat) :
    List.foldl (fun a c => a * 10 + digitVal c) 0 (List.replicate j '0') = 0 := by
  induction j with
  | zero => rfl
  | succ j ih => simpa [List.replicate_succ, digitVal] using ih

theorem natVal_leftPad (k : Nat) (ds : Chars) : natVal (leftPad k ds) = natVal ds := by
  unfold leftPad natVal
  rw [List.foldl_append, natVal_replicate_zero]

theorem leftPad_length (k : Nat) (ds : Chars) (h : ds.length ≤ k) :
    (leftPad k ds).length = k := by
  simp [leftPad]
  omega

theorem leftPad_digits (k : Nat) (ds : Chars) (h : ∀ c ∈ ds, c.isDigit = true) :
    ∀ c ∈ leftPad k ds, c.isDigit = true := by
  intro c hc
  rcases List.mem_append.mp hc with h1 | h1
  · rw [List.eq_of_mem_replicate h1]
    decide
  · exact h c h1

/-! Separator-splitting lemmas. -/

theorem splitOnChar_not_mem (sep : Char) (l : Chars) (h : sep ∉ l) :
    splitOnChar sep l = [l] := by
  induction l with
  | nil => rfl
  | cons c cs ih =>
    rw [splitOnChar]
    rw [List.mem_cons, not_or] at h
    rw [if_neg (fun e => h.1 e.symm)]
    · rw [ih h.2]
  
theorem splitOnChar_sep_append (sep : Char) (l1 l2 : Chars) (h : sep ∉ l1) :
    splitOnChar sep (l1 ++ sep :: l2) = l1 :: splitOnChar sep l2 := by
  induction l1 with
  | nil =>
    rw [List.nil_append, splitOnChar, if_pos rfl]
  | cons c cs ih =>
    rw [List.mem_cons, not_or] at h
    rw [List.cons_append, splitOnChar]
    rw [if_neg (fun e => h.1 e.symm)]
    rw [ih h.2]

theorem splitWsAux_nonws_append (t : Chars) (hws : ∀ c ∈ t, isWs c = false) :
    ∀ cs acc, splitWsAux (t ++ cs) acc = splitWsAux cs (t.reverse ++ acc) := by
  induction t with
  | nil => intro cs acc; rfl
  | cons c t' ih =>
    intro cs acc
    rw [List.cons_append, splitWsAux, if_neg]
    · rw [ih (fun d hd => hws d (List.mem_cons_of_mem c hd)) cs (c :: acc)]
      congr 1
      simp
    · rw [hws c (List.mem_cons_self c t')]
      simp

theorem splitWsAux_nonws (t : Chars) (hws : ∀ c ∈ t, isWs c = false) (acc : Chars) :
    splitWsAux t acc = splitWsAux [] (t.reverse ++ acc) := by
  have h := splitWsAux_nonws_append t hws [] acc
  rwa [List.append_nil] at h

theorem splitWs_join (ts : List Chars)
    (h : ∀ t ∈ ts, t ≠ [] ∧ ∀ c ∈ t, isWs c = false) :
    splitWs (joinWords ts) = ts := by
  induction ts with
  | nil => rfl
  | cons t ts' ih =>
    obtain ⟨hne, hws⟩ := h t (List.mem_cons_self t ts')
    have hrevne : t.reverse ++ ([] : Chars) ≠ [] := by simpa using hne
    cases ts' with
    | nil =>
      show splitWsAux (joinWords [t]) [] = [t]
      rw [joinWords, splitWsAux_nonws t hws [], splitWsAux, if_neg hrevne]
      simp
    | cons t2 ts'' =>
      show splitWsAux (joinWords (t :: t2 :: ts'')) [] = t :: t2 :: ts''
      rw [joinWords]
      rw [splitWsAux_nonws_append t hws (' ' :: joinWords (t2 :: ts'')) []]
      rw [splitWsAux]
      rw [if_pos (by decide)]
      rw [if_neg hrevne]
      have hrr : (t.reverse ++ ([] : Chars)).reverse = t := by simp
      rw [hrr]
      exact congrArg (t :: ·) (ih fun u hu => h u (List.mem_cons_of_mem t hu))
      exact fun habs => List.noConfusion habs

theorem hasSub_false_of_not_mem (p : Char) (ps cs : Chars) (h : p ∉ cs) :
    hasSub (p :: ps) cs = false := by
  induction cs with
  | nil => rfl
  | cons c rest ih =>
    rw [List.mem_cons, not_or] at h
    rw [hasSub]
    rw [ih h.2]
    rw [startsWith]
    rw [Bool.or_false]
    simp only [Bool.and_eq_false_iff]
    left
    simpa using fun e => h.1 e.symm

theorem dropStart_append (p r : Chars) : dropStart p (p ++ r) = some r := by
  induction p with
  | nil => rfl
  | cons c cs ih =>
    rw [List.cons_append, dropStart, if_pos rfl]
    exact ih

/-! Character-set facts about the float renderer. -/

theorem renderUFloat_shape (q : Rat) :
    ∀ c ∈ renderUFloat q, c = '.' ∨ c.isDigit = true := by
  simp only [renderUFloat]
  split_ifs with hk
  · intro c hc
    exact Or.inr (natDigits_digits _ c hc)
  · intro c hc
    rcases List.mem_append.mp hc with h1 | h1
    · exact Or.inr (natDigits_digits _ c h1)
    · rcases List.mem_cons.mp h1 with h2 | h2
      · exact Or.inl h2
      · exact Or.inr (leftPad_digits _ _ (natDigits_digits _) c h2)

theorem renderUFloat_ne_nil (q : Rat) : renderUFloat q ≠ [] := by
  simp only [renderUFloat]
  split_ifs with hk
  · exact natDigits_ne_nil _
  · intro habs
    exact natDigits_ne_nil _ (List.append_eq_nil.mp habs).1

theorem renderFloat_shape (q : Rat) :
    ∀ c ∈ renderFloat q, c = '-' ∨ c = '.' ∨ c.isDigit = true := by
  unfold renderFloat
  split_ifs with hq
  · intro c hc
    rcases List.mem_cons.mp hc with h1 | h1
    · exact Or.inl h1
    · exact Or.inr (renderUFloat_shape _ c h1)
  · intro c hc
    exact Or.inr (renderUFloat_shape q c hc)

theorem renderFloat_ne_nil (q : Rat) : renderFloat q ≠ [] := by
  unfold renderFloat
  split_ifs with hq
  · simp
  · exact renderUFloat_ne_nil q

theorem renderFloat_no_percent (q : Rat) : '%' ∉ renderFloat q := by
  intro h
  rcases renderFloat_shape q '%' h with h1 | h1 | h1 <;> simp_all

theorem renderFloat_no_c (q : Rat) : 'c' ∉ renderFloat q := by
  intro h
  rcases renderFloat_shape q 'c' h with h1 | h1 | h1 <;> simp_all

theorem renderFloat_no_ws (q : Rat) : ∀ c ∈ renderFloat q, isWs c = false := by
  intro c hc
  rcases renderFloat_shape q c hc with h1 | h1 | h1
  · subst h1; decide
  · subst h1; decide
  · exact isWs_of_isDigit c h1

/-! Arithmetic facts about the parsed decimals. -/

theorem parseUFloat_nonneg (cs : Chars) (q : Rat) (h : parseUFloat cs = some q) : 0 ≤ q := by
  unfold parseUFloat at h
  rcases hsp : splitOnChar '.' cs with - | ⟨ds, - | ⟨fp, - | ⟨x, l⟩⟩⟩ <;>
    (rw [hsp] at h; dsimp only [] at h)
  · exact absurd h (by simp)
  · split_ifs at h with hc
    rw [Option.some_inj] at h
    subst h
    exact Nat.cast_nonneg _
  · split_ifs at h with hc
    rw [Option.some_inj] at h
    subst h
    rw [Rat.mkRat_eq_div]
    positivity
  · exact absurd h (by simp)

theorem parseUFloat_den_dvd (cs : Chars) (q : Rat) (h : parseUFloat cs = some q) :
    ∃ j, q.den ∣ 10 ^ j := by
  unfold parseUFloat at h
  rcases hsp : splitOnChar '.' cs with - | ⟨ds, - | ⟨fp, - | ⟨x, l⟩⟩⟩ <;>
    (rw [hsp] at h; dsimp only [] at h)
  · exact absurd h (by simp)
  · split_ifs at h with hc
    rw [Option.some_inj] at h
    subst h
    exact ⟨0, by rw [Rat.den_natCast]; simp⟩
  · split_ifs at h with hc
    rw [Option.some_inj] at h
    subst h
    refine ⟨fp.length, ?_⟩
    rw [Rat.mkRat_eq_divInt]
    have hd := Rat.den_dvd ((natVal ds * 10 ^ fp.length + natVal fp : Nat) : Int)
      ((10 ^ fp.length : Nat) : Int)
    exact_mod_cast hd
  · exact absurd h (by simp)

theorem dvd_pow10_small (d j : Nat) (h : d ∣ 10 ^ j) : ∃ k ≤ d, d ∣ 10 ^ k := by
  have h10 : (10 : ℕ) ^ j = 2 ^ j * 5 ^ j := by rw [← Nat.mul_pow]
  rw [h10] at h
  obtain ⟨d2, d5, hd2, hd5, heq⟩ := exists_dvd_and_dvd_of_dvd_mul h
  obtain ⟨a, ha, rfl⟩ := (Nat.dvd_prime_pow Nat.prime_two).mp hd2
  obtain ⟨b, hb, rfl⟩ := (Nat.dvd_prime_pow Nat.prime_five).mp hd5
  subst heq
  refine ⟨max a b, ?_, ?_⟩
  · have h2a : a < 2 ^ a := Nat.lt_two_pow a
    have h2b : b < 2 ^ b := Nat.lt_two_pow b
    have h5b : 2 ^ b ≤ 5 ^ b := Nat.pow_le_pow_left (by omega) b
    have h5pos : 1 ≤ 5 ^ b := Nat.one_le_pow _ _ (by omega)
    have h2pos : 1 ≤ 2 ^ a := Nat.one_le_pow _ _ (by omega)
    have hle1 : 2 ^ a ≤ 2 ^ a * 5 ^ b := le_mul_of_one_le_right (Nat.zero_le _) h5pos
    have hle2 : 5 ^ b ≤ 2 ^ a * 5 ^ b := le_mul_of_one_le_left (Nat.zero_le _) h2pos
    omega
  · have hmp : (10 : ℕ) ^ max a b = 2 ^ max a b * 5 ^ max a b := by rw [← Nat.mul_pow]
    rw [hmp]
    exact mul_dvd_mul (pow_dvd_pow 2 (le_max_left a b)) (pow_dvd_pow 5 (le_max_right a b))

theorem den_one_of_dvd (q : Rat) (k : Nat) (h : q.den ∣ 10 ^ k) :
    (ratTimesPow10 q k).den = 1 := by
  rw [ratTimesPow10_eq]
  obtain ⟨m, hm⟩ := h
  have hden : ((q.den : ℚ)) ≠ 0 := by exact_mod_cast q.den_nz
  have h1 : ((10 : ℚ)) ^ k = ((q.den : ℚ)) * ((m : ℕ) : ℚ) := by
    have h2 : ((10 ^ k : ℕ) : ℚ) = ((q.den * m : ℕ) : ℚ) := by exact_mod_cast congrArg Nat.cast hm
    push_cast at h2
    linarith
  have hnum : ((q.num : ℚ)) = q * (q.den : ℚ) := (div_eq_iff hden).mp (Rat.num_div_den q)
  have hqm : q * 10 ^ k = ((q.num * m : ℤ) : ℚ) := by
    push_cast
    rw [hnum, h1]
    ring
  rw [hqm, Rat.den_intCast]

theorem decExp_spec (q : Rat) (h : ∃ k, k ≤ q.den ∧ (ratTimesPow10 q k).den = 1) :
    (ratTimesPow10 q (decExp q)).den = 1 := by
  obtain ⟨k, hk, hden⟩ := h
  unfold decExp
  cases hf : (List.range (q.den + 1)).find? (fun k => (ratTimesPow10 q k).den = 1) with
  | none =>
    have hsome : ((List.range (q.den + 1)).find?
        (fun k => (ratTimesPow10 q k).den = 1)).isSome := by
      refine List.find?_isSome.mpr ⟨k, List.mem_range.mpr (by omega), by simpa using hden⟩
    rw [hf] at hsome
    simp at hsome
  | some k' =>
    have hp := List.find?_some hf
    simpa using hp

theorem parseUFloat_dec (cs : Chars) (q : Rat) (h : parseUFloat cs = some q) :
    (ratTimesPow10 q (decExp q)).den = 1 := by
  obtain ⟨j, hj⟩ := parseUFloat_den_dvd cs q h
  obtain ⟨k, hk, hkdvd⟩ := dvd_pow10_small q.den j hj
  exact decExp_spec q ⟨k, hk, den_one_of_dvd q k hkdvd⟩

theorem natDigits_no_dot (n : Nat) : '.' ∉ natDigits n := by
  intro h
  exact (isDigit_not_special '.' (natDigits_digits n '.' h)).1 rfl

theorem allDigits_of (ds : Chars) (h : ∀ c ∈ ds, c.isDigit = true) : allDigits ds = true :=
  List.all_eq_true.mpr h

/-- Parsing back the rendered nonnegative decimal recovers the value. -/
theorem parseUFloat_renderUFloat (q : Rat) (hq : 0 ≤ q)
    (hden : (ratTimesPow10 q (decExp q)).den = 1) :
    parseUFloat (renderUFloat q) = some q := by
  have hprod : ratTimesPow10 q (decExp q) = q * 10 ^ (decExp q) :=
    ratTimesPow10_eq q (decExp q)
  have hprod_nonneg : 0 ≤ q * 10 ^ (decExp q) := by positivity
  have hnum_nonneg : 0 ≤ (ratTimesPow10 q (decExp q)).num := by
    rw [hprod]
    exact Rat.num_nonneg.mpr hprod_nonneg
  have hncast : (((ratTimesPow10 q (decExp q)).num.toNat : ℤ)) =
      (ratTimesPow10 q (decExp q)).num := Int.toNat_of_nonneg hnum_nonneg
  have hint : q * 10 ^ (decExp q) = (((ratTimesPow10 q (decExp q)).num.toNat : ℕ) : ℚ) := by
    rw [← hprod]
    conv_lhs => rw [← Rat.num_div_den (ratTimesPow10 q (decExp q))]
    rw [hden]
    push_cast
    rw [div_one]
    exact_mod_cast hncast.symm
  simp only [renderUFloat]
  split_ifs with hk0
  · have hint0 : q = (((ratTimesPow10 q 0).num.toNat : ℕ) : ℚ) := by
      have h2 := hint
      rw [hk0, pow_zero, mul_one] at h2
      exact h2
    rw [hk0]
    unfold parseUFloat
    rw [splitOnChar_not_mem '.' _ (natDigits_no_dot _)]
    dsimp only []
    rw [if_pos ⟨natDigits_ne_nil _, allDigits_of _ (natDigits_digits _)⟩]
    rw [natVal_natDigits, Option.some_inj]
    exact hint0.symm
  · have hk1 : 1 ≤ decExp q := Nat.one_le_iff_ne_zero.mpr hk0
    have hmodlt : (ratTimesPow10 q (decExp q)).num.toNat % 10 ^ (decExp q) <
        10 ^ (decExp q) := Nat.mod_lt _ (Nat.pos_pow_of_pos _ (by omega))
    have hlen : (leftPad (decExp q)
        (natDigits ((ratTimesPow10 q (decExp q)).num.toNat % 10 ^ (decExp q)))).length =
        decExp q :=
      leftPad_length _ _ (natDigits_length_le _ _ hmodlt hk1)
    have hpaddigits : ∀ c ∈ leftPad (decExp q)
        (natDigits ((ratTimesPow10 q (decExp q)).num.toNat % 10 ^ (decExp q))),
        c.isDigit = true := leftPad_digits _ _ (natDigits_digits _)
    have hpadnodot : '.' ∉ leftPad (decExp q)
        (natDigits ((ratTimesPow10 q (decExp q)).num.toNat % 10 ^ (decExp q))) := by
      intro hmem
      exact (isDigit_not_special '.' (hpaddigits '.' hmem)).1 rfl
    have hsplit := splitOnChar_sep_append '.'
      (natDigits ((ratTimesPow10 q (decExp q)).num.toNat / 10 ^ (decExp q)))
      (leftPad (decExp q)
        (natDigits ((ratTimesPow10 q (decExp q)).num.toNat % 10 ^ (decExp q))))
      (natDigits_no_dot _)
    rw [splitOnChar_not_mem '.' _ hpadnodot] at hsplit
    unfold parseUFloat
    rw [hsplit]
    dsimp only []
    rw [if_pos ⟨Or.inl (natDigits_ne_nil _),
      allDigits_of _ (natDigits_digits _), allDigits_of _ hpaddigits⟩]
    rw [natVal_natDigits, natVal_leftPad, natVal_natDigits, hlen]
    rw [Nat.div_add_mod']
    rw [Option.some_inj]
    rw [Rat.mkRat_eq_div]
    rw [div_eq_iff (by positivity : ((10 ^ decExp q : ℕ) : ℚ) ≠ 0)]
    push_cast
    exact_mod_cast hint.symm

theorem renderUFloat_head (q : Rat) :
    ∃ d ds, renderUFloat q = d :: ds ∧ d.isDigit = true := by
  simp only [renderUFloat]
  split_ifs with hk
  · cases hnd : natDigits ((ratTimesPow10 q (decExp q)).num.toNat) with
    | nil => exact absurd hnd (natDigits_ne_nil _)
    | cons d ds =>
      exact ⟨d, ds, rfl, natDigits_digits _ d (hnd ▸ List.mem_cons_self d ds)⟩
  · cases hnd : natDigits ((ratTimesPow10 q (decExp q)).num.toNat / 10 ^ (decExp q)) with
    | nil => exact absurd hnd (natDigits_ne_nil _)
    | cons d ds =>
      refine ⟨d, ds ++ '.' :: leftPad (decExp q)
        (natDigits ((ratTimesPow10 q (decExp q)).num.toNat % 10 ^ (decExp q))), ?_,
        natDigits_digits _ d (hnd ▸ List.mem_cons_self d ds)⟩
      rw [List.cons_append]

theorem parseFloatChars_renderUFloat (q : Rat) (h : parseUFloat (renderUFloat q) = some q) :
    parseFloatChars (renderUFloat q) = some q := by
  obtain ⟨d, ds, hr, hd⟩ := renderUFloat_head q
  rw [hr] at h ⊢
  obtain ⟨-, hdm, hdp, -, -, -, -⟩ := isDigit_not_special d hd
  rw [parseFloatChars, if_neg hdm, if_neg hdp]
  exact h

/-- Parsing back the rendered decimal (with sign) recovers the value:
the full float round trip, for any value in the image of the parser. -/
theorem parseFloatChars_renderFloat (cs : Chars) (q : Rat)
    (h : parseFloatChars cs = some q) : parseFloatChars (renderFloat q) = some q := by
  cases cs with
  | nil => exact absurd h (by simp [parseFloatChars])
  | cons c rest =>
    rw [parseFloatChars] at h
    split_ifs at h with hminus hplus
    · cases hu : parseUFloat rest with
      | none => rw [hu] at h; exact absurd h (by simp)
      | some q0 =>
        rw [hu] at h
        simp only [Option.map_some'] at h
        rw [Option.some_inj] at h
        subst h
        have hq0 : 0 ≤ q0 := parseUFloat_nonneg rest q0 hu
        have hdec : (ratTimesPow10 q0 (decExp q0)).den = 1 := parseUFloat_dec rest q0 hu
        by_cases hz : q0 = 0
        · subst hz
          rw [neg_zero, renderFloat, if_neg (lt_irrefl 0)]
          exact parseFloatChars_renderUFloat 0 (parseUFloat_renderUFloat 0 le_rfl hdec)
        · have hpos : 0 < q0 := lt_of_le_of_ne hq0 (Ne.symm hz)
          rw [renderFloat, if_pos (by linarith : -q0 < 0), neg_neg]
          rw [parseFloatChars, if_pos rfl]
          rw [parseUFloat_renderUFloat q0 hq0 hdec]
          rfl
    · cases hu : parseUFloat rest with
      | none => rw [hu] at h; exact absurd h (by simp)
      | some q0 =>
        rw [hu, Option.some_inj] at h
        subst h
        have hq0 : 0 ≤ q0 := parseUFloat_nonneg rest q0 hu
        have hdec := parseUFloat_dec rest q0 hu
        rw [renderFloat, if_neg (not_lt.mpr hq0)]
        exact parseFloatChars_renderUFloat q0 (parseUFloat_renderUFloat q0 hq0 hdec)
    · have hq0 : 0 ≤ q := parseUFloat_nonneg (c :: rest) q h
      have hdec := parseUFloat_dec (c :: rest) q h
      rw [renderFloat, if_neg (not_lt.mpr hq0)]
      exact parseFloatChars_renderUFloat q (parseUFloat_renderUFloat q hq0 hdec)

/-! Calc-token round trip. -/

theorem calcToken_percentage_inv (v : Chars) (p : Rat)
    (h : calcToken v = some (CalcType.Percentage p)) : ∃ cs, parseFloatChars cs = some p := by
  unfold calcToken at h
  split_ifs at h with h1 h2 h3 h4 h5
  · cases hp : parseFloatChars (v.filter (fun c => c ≠ '%')) with
    | none => rw [hp] at h; exact absurd h (by simp)
    | some r =>
      rw [hp] at h
      simp only [Option.map_some'] at h
      rw [Option.some_inj] at h
      injection h with h'
      subst h'
      exact ⟨_, hp⟩
  · exact absurd h (by simp)
  · exact absurd h (by simp)
  · exact absurd h (by simp)
  · exact absurd h (by simp)
  · cases hp : parseFloatChars v with
    | none => rw [hp] at h; exact absurd h (by simp)
    | some r => rw [hp] at h; simp at h

theorem calcToken_manual_inv (v : Chars) (p : Rat)
    (h : calcToken v = some (CalcType.Manual p)) : ∃ cs, parseFloatChars cs = some p := by
  unfold calcToken at h
  split_ifs at h with h1 h2 h3 h4 h5
  · cases hp : parseFloatChars (v.filter (fun c => c ≠ '%')) with
    | none => rw [hp] at h; exact absurd h (by simp)
    | some r => rw [hp] at h; simp at h
  · exact absurd h (by simp)
  · exact absurd h (by simp)
  · exact absurd h (by simp)
  · exact absurd h (by simp)
  · cases hp : parseFloatChars v with
    | none => rw [hp] at h; exact absurd h (by simp)
    | some r =>
      rw [hp] at h
      simp only [Option.map_some'] at h
      rw [Option.some_inj] at h
      injection h with h'
      subst h'
      exact ⟨_, hp⟩

theorem calcText_ne_nil (t : CalcType) : calcText t ≠ [] := by
  cases t with
  | Sub => decide
  | Mul => decide
  | Div => decide
  | Add => decide
  | Percentage p => simp [calcText]
  | Manual s => exact renderFloat_ne_nil s

theorem calcText_no_ws (t : CalcType) : ∀ c ∈ calcText t, isWs c = false := by
  cases t with
  | Sub => decide
  | Mul => decide
  | Div => decide
  | Add => decide
  | Percentage p =>
    intro c hc
    rcases List.mem_append.mp hc with h1 | h1
    · exact renderFloat_no_ws p c h1
    · rw [List.mem_singleton] at h1
      subst h1
      decide
  | Manual s => exact renderFloat_no_ws s

theorem renderFloat_ne_minus (q : Rat) : renderFloat q ≠ ['-'] := by
  unfold renderFloat
  split_ifs with hq
  · intro h
    injection h with h1 h2
    exact renderUFloat_ne_nil (-q) h2
  · intro h
    have hm : '-' ∈ renderUFloat q := h ▸ List.mem_singleton_self '-'
    rcases renderUFloat_shape q '-' hm with h1 | h1 <;> simp_all

theorem renderFloat_ne_single (q : Rat) (c : Char) (hc1 : c ≠ '-') (hc2 : c ≠ '.')
    (hc3 : c.isDigit = false) : renderFloat q ≠ [c] := by
  intro h
  have hm : c ∈ renderFloat q := h ▸ List.mem_singleton_self c
  rcases renderFloat_shape q c hm with h1 | h1 | h1
  · exact hc1 h1
  · exact hc2 h1
  · rw [h1] at hc3
    exact Bool.noConfusion hc3

theorem renderFloat_no_percent_any (q : Rat) :
    (renderFloat q).any (fun c => c = '%') = false := by
  rw [Bool.eq_false_iff]
  intro h
  obtain ⟨c, hc, he⟩ := List.any_eq_true.mp h
  rw [decide_eq_true_eq] at he
  subst he
  exact renderFloat_no_percent q hc

theorem calcToken_calcText_percentage (p : Rat) (csrc : Chars)
    (hsrc : parseFloatChars csrc = some p) :
    calcToken (calcText (CalcType.Percentage p)) = some (CalcType.Percentage p) := by
  unfold calcToken calcText
  rw [if_pos]
  · have hfil : (renderFloat p ++ ['%']).filter (fun c => c ≠ '%') = renderFloat p := by
      rw [List.filter_append]
      have hself : (renderFloat p).filter (fun c => c ≠ '%') = renderFloat p := by
        rw [List.filter_eq_self]
        intro c hc
        have hcne : c ≠ '%' := by
          intro e
          rw [e] at hc
          exact renderFloat_no_percent p hc
        simpa using hcne
      rw [hself]
      simp
    rw [hfil]
    rw [parseFloatChars_renderFloat csrc p hsrc]
    rfl
  · rw [List.any_eq_true]
    exact ⟨'%', List.mem_append.mpr (Or.inr (List.mem_singleton_self _)), by decide⟩

theorem calcToken_calcText_manual (p : Rat) (csrc : Chars)
    (hsrc : parseFloatChars csrc = some p) :
    calcToken (calcText (CalcType.Manual p)) = some (CalcType.Manual p) := by
  unfold calcToken calcText
  rw [if_neg (by rw [renderFloat_no_percent_any p]; exact Bool.noConfusion)]
  rw [if_neg (renderFloat_ne_single p '+' (by decide) (by decide) (by decide))]
  rw [if_neg (renderFloat_ne_minus p)]
  rw [if_neg (renderFloat_ne_single p '/' (by decide) (by decide) (by decide))]
  rw [if_neg (renderFloat_ne_single p '*' (by decide) (by decide) (by decide))]
  rw [parseFloatChars_renderFloat csrc p hsrc]
  rfl

theorem calcTokens_map_calcText (vs : List Chars) (ts : List CalcType)
    (h : calcTokens vs = some ts) : calcTokens (ts.map calcText) = some ts := by
  induction vs generalizing ts with
  | nil =>
    rw [calcTokens, Option.some_inj] at h
    subst h
    rfl
  | cons v vs' ih =>
    rw [calcTokens] at h
    cases ht : calcToken v with
    | none => rw [ht] at h; exact absurd h (by simp)
    | some t =>
      rw [ht] at h
      cases hts : calcTokens vs' with
      | none => rw [hts] at h; exact absurd h (by simp)
      | some ts' =>
        rw [hts] at h
        have h' : t :: ts' = ts := by
          simpa using h
        subst h'
        rw [List.map_cons, calcTokens]
        have htt : calcToken (calcText t) = some t := by
          cases t with
          | Sub => decide
          | Mul => decide
          | Div => decide
          | Add => decide
          | Percentage p =>
            obtain ⟨cs, hp⟩ := calcToken_percentage_inv v p ht
            exact calcToken_calcText_percentage p cs hp
          | Manual p =>
            obtain ⟨cs, hp⟩ := calcToken_manual_inv v p ht
            exact calcToken_calcText_manual p cs hp
        rw [htt, ih ts' hts]
        rfl

theorem dropLastChar_concat (ch : Char) (l : Chars) : dropLastChar ch (l ++ [ch]) = some l := by
  unfold dropLastChar
  rw [List.getLast?_concat]
  dsimp only []
  rw [if_pos rfl, List.dropLast_concat]

theorem startsWith_append (pat rest : Chars) : startsWith (pat ++ rest) pat = true := by
  induction pat with
  | nil => simp [startsWith]
  | cons p ps ih =>
    rw [List.cons_append, startsWith]
    simp [ih]

theorem hasSub_of_startsWith (pat cs : Chars) (h : startsWith cs pat = true)
    (hne : cs ≠ []) : hasSub pat cs = true := by
  cases cs with
  | nil => exact absurd rfl hne
  | cons c rest =>
    rw [hasSub, h, Bool.true_or]

theorem renderFloat_filter_percent (p : Rat) :
    (renderFloat p ++ ['%']).filter (fun c => c ≠ '%') = renderFloat p := by
  rw [List.filter_append]
  have hself : (renderFloat p).filter (fun c => c ≠ '%') = renderFloat p := by
    rw [List.filter_eq_self]
    intro c hc
    have hcne : c ≠ '%' := by
      intro e
      rw [e] at hc
      exact renderFloat_no_percent p hc
    simpa using hcne
  rw [hself]
  simp

theorem parse_calc_tokens (s : String) (ts : List CalcType) (h : parse_calc s = some ts) :
    ∃ vs, calcTokens vs = some ts := by
  unfold parse_calc at h
  cases d1 : dropStart ('c' :: 'a' :: 'l' :: 'c' :: '(' :: []) s.toList with
  | none => rw [d1] at h; exact absurd h (by simp)
  | some cs1 =>
    rw [d1] at h
    have h1 : (do
        let cs ← dropLastChar ')' cs1
        calcTokens (splitWs cs)) = some ts := by
      simpa using h
    cases d2 : dropLastChar ')' cs1 with
    | none => rw [d2] at h1; exact absurd h1 (by simp)
    | some cs2 =>
      rw [d2] at h1
      exact ⟨splitWs cs2, by simpa using h1⟩

theorem parse_calc_roundtrip (ts : List CalcType) (vs : List Chars)
    (h : calcTokens vs = some ts) :
    parse_calc ⟨('c' :: 'a' :: 'l' :: 'c' :: '(' :: []) ++
      joinWords (ts.map calcText) ++ [')']⟩ = some ts := by
  unfold parse_calc
  have htl : (String.mk (('c' :: 'a' :: 'l' :: 'c' :: '(' :: []) ++
      joinWords (ts.map calcText) ++ [')'])).toList =
      ('c' :: 'a' :: 'l' :: 'c' :: '(' :: []) ++ (joinWords (ts.map calcText) ++ [')']) := by
    show (('c' :: 'a' :: 'l' :: 'c' :: '(' :: []) ++
      joinWords (ts.map calcText) ++ [')'] : Chars) = _
    rw [List.append_assoc]
  rw [htl, dropStart_append]
  have hwords : ∀ t ∈ ts.map calcText, t ≠ [] ∧ ∀ c ∈ t, isWs c = false := by
    intro t ht
    obtain ⟨u, hu, rfl⟩ := List.mem_map.mp ht
    exact ⟨calcText_ne_nil u, calcText_no_ws u⟩
  calc (do
        let cs ← some (joinWords (ts.map calcText) ++ [')'])
        let cs ← dropLastChar ')' cs
        calcTokens (splitWs cs))
      = (do
        let cs ← dropLastChar ')' (joinWords (ts.map calcText) ++ [')'])
        calcTokens (splitWs cs)) := rfl
    _ = calcTokens (splitWs (joinWords (ts.map calcText))) := by
        rw [dropLastChar_concat]
        simp
    _ = calcTokens (ts.map calcText) := by rw [splitWs_join (ts.map calcText) hwords]
    _ = some ts := calcTokens_map_calcText vs ts h

/-- C8: every size value accepted by `parse_size`, rendered back to text
with the SizeMode Display formatting, parses again to an equal value —
for all four variants Auto, Percentage, Manual and Calculation. -/
theorem parse_size_roundtrip (s : String) (v : SizeMode) (h : parse_size s = some v) :
    parse_size (sizeModeText v) = some v := by
  unfold parse_size at h
  split_ifs at h with h1 h2 h3 h4
  · -- s = "stretch"
    rw [Option.some_inj] at h
    subst h
    decide
  · -- s = "auto"
    rw [Option.some_inj] at h
    subst h
    decide
  · -- calc branch
    cases hc : parse_calc s with
    | none => rw [hc] at h; exact absurd h (by simp)
    | some ts =>
      rw [hc] at h
      simp only [Option.map_some'] at h
      rw [Option.some_inj] at h
      subst h
      obtain ⟨vs, hvs⟩ := parse_calc_tokens s ts hc
      show parse_size ⟨('c' :: 'a' :: 'l' :: 'c' :: '(' :: []) ++
        joinWords (ts.map calcText) ++ [')']⟩ = some (SizeMode.Calculation ts)
      unfold parse_size
      rw [if_neg ?hstretch, if_neg ?hauto, if_pos ?hcalc]
      · rw [parse_calc_roundtrip ts vs hvs]
        rfl
      case hstretch =>
        intro e
        have e2 : (('c' :: 'a' :: 'l' :: 'c' :: '(' :: []) ++
            joinWords (ts.map calcText) ++ [')'] : Chars) = "stretch".data :=
          congrArg String.data e
        rw [List.append_assoc] at e2
        injection e2 with e3 e4
        exact absurd e3 (by decide)
      case hauto =>
        intro e
        have e2 : (('c' :: 'a' :: 'l' :: 'c' :: '(' :: []) ++
            joinWords (ts.map calcText) ++ [')'] : Chars) = "auto".data :=
          congrArg String.data e
        rw [List.append_assoc] at e2
        injection e2 with e3 e4
        exact absurd e3 (by decide)
      case hcalc =>
        exact hasSub_of_startsWith calcPat _
          (startsWith_append calcPat ('(' :: (joinWords (ts.map calcText) ++ [')'])))
          (by simp)
  · -- percentage branch
    cases hp : parseFloatChars (s.toList.filter (fun c => c ≠ '%')) with
    | none => rw [hp] at h; exact absurd h (by simp)
    | some p =>
      rw [hp] at h
      simp only [Option.map_some'] at h
      rw [Option.some_inj] at h
      subst h
      show parse_size ⟨renderFloat p ++ ['%']⟩ = some (SizeMode.Percentage p)
      have hnoc : 'c' ∉ renderFloat p ++ ['%'] := by
        intro hm
        rcases List.mem_append.mp hm with hm1 | hm1
        · exact renderFloat_no_c p hm1
        · rw [List.mem_singleton] at hm1
          exact absurd hm1 (by decide)
      have hcalcF : hasSub calcPat (renderFloat p ++ ['%']) = false :=
        hasSub_false_of_not_mem 'c' ['a', 'l', 'c'] _ hnoc
      unfold parse_size
      rw [if_neg ?hstretchP, if_neg ?hautoP, if_neg ?hcalcP, if_pos ?hanyP]
      · show Option.map SizeMode.Percentage
            (parseFloatChars ((renderFloat p ++ ['%']).filter (fun c => c ≠ '%'))) =
          some (SizeMode.Percentage p)
        rw [renderFloat_filter_percent p, parseFloatChars_renderFloat _ p hp]
        rfl
      case hcalcP =>
        intro hcontra
        have h5 : hasSub calcPat (renderFloat p ++ ['%']) = true := hcontra
        rw [hcalcF] at h5
        exact Bool.noConfusion h5
      case hstretchP =>
        intro e
        have e2 : (renderFloat p ++ ['%'] : Chars) = "stretch".data := congrArg String.data e
        have hm : '%' ∈ "stretch".data := by
          rw [← e2]
          exact List.mem_append.mpr (Or.inr (List.mem_singleton_self _))
        exact absurd hm (by decide)
      case hautoP =>
        intro e
        have e2 : (renderFloat p ++ ['%'] : Chars) = "auto".data := congrArg String.data e
        have hm : '%' ∈ "auto".data := by
          rw [← e2]
          exact List.mem_append.mpr (Or.inr (List.mem_singleton_self _))
        exact absurd hm (by decide)
      case hanyP =>
        exact List.any_eq_true.mpr
          ⟨'%', List.mem_append.mpr (Or.inr (List.mem_singleton_self _)), by decide⟩
  · -- manual branch
    cases hp : parseFloatChars s.toList with
    | none => rw [hp] at h; exact absurd h (by simp)
    | some m =>
      rw [hp] at h
      simp only [Option.map_some'] at h
      rw [Option.some_inj] at h
      subst h
      show parse_size ⟨renderFloat m⟩ = some (SizeMode.Manual m)
      have hcalcF : hasSub calcPat (renderFloat m) = false :=
        hasSub_false_of_not_mem 'c' ['a', 'l', 'c'] _ (renderFloat_no_c m)
      unfold parse_size
      rw [if_neg ?hstretchM, if_neg ?hautoM, if_neg ?hcalcM, if_neg ?hanyM,
        if_neg ?hcalcM2]
      · show Option.map SizeMode.Manual (parseFloatChars (renderFloat m)) =
          some (SizeMode.Manual m)
        rw [parseFloatChars_renderFloat _ m hp]
        rfl
      case hcalcM =>
        intro hcontra
        have h5 : hasSub calcPat (renderFloat m) = true := hcontra
        rw [hcalcF] at h5
        exact Bool.noConfusion h5
      case hcalcM2 =>
        intro hcontra
        have h5 : hasSub calcPat (renderFloat m) = true := hcontra
        rw [hcalcF] at h5
        exact Bool.noConfusion h5
      case hanyM =>
        intro hcontra
        have h5 : (renderFloat m).any (fun c => c = '%') = true := hcontra
        rw [renderFloat_no_percent_any m] at h5
        exact Bool.noConfusion h5
      case hstretchM =>
        intro e
        have e2 : renderFloat m = "stretch".data := congrArg String.data e
        have hs : 's' ∈ renderFloat m := by
          rw [e2]
          decide
        rcases renderFloat_shape m 's' hs with hx | hx | hx <;> exact absurd hx (by decide)
      case hautoM =>
        intro e
        have e2 : renderFloat m = "auto".data := congrArg String.data e
        have hs : 'a' ∈ renderFloat m := by
          rw [e2]
          decide
        rcases renderFloat_shape m 'a' hs with hx | hx | hx <;> exact absurd hx (by decide)

/-- C8 witness: a concrete calc expression (with percentage, operator
and fractional manual tokens) and a concrete percentage round-trip
through the rendering. -/
theorem parse_size_roundtrip_witness :
    parse_size "calc(50% - 0.5)" = some (SizeMode.Calculation
      [CalcType.Percentage 50, CalcType.Sub, CalcType.Manual (mkRat 1 2)]) ∧
    parse_size (sizeModeText (SizeMode.Calculation
      [CalcType.Percentage 50, CalcType.Sub, CalcType.Manual (mkRat 1 2)])) =
      some (SizeMode.Calculation
        [CalcType.Percentage 50, CalcType.Sub, CalcType.Manual (mkRat 1 2)]) ∧
    parse_size (sizeModeText (SizeMode.Percentage 60)) = some (SizeMode.Percentage 60) :=
  ⟨by decide, parse_size_roundtrip "calc(50% - 0.5)" _ (by decide),
   parse_size_roundtrip "60%" _ (by decide)⟩
